import Mathlib

/-!
# setmaxproc: the GOMAXPROCS mutating admission webhook

A shallow embedding of the mutation engine of `main.go`
(`mutateGOMAXPROCS`, `isGoContainer`, `hasGOMAXPROCS`, `calculateGOMAXPROCS`)
and of the admission handler `WebhookServer.mutate`, and theorems about them.

Conventions of the embedding:

* a Go slice or map that may be `nil` is an `Option`; `none` is `nil`;
* a Go map is a partial function on its key type;
* Go `int` is a 64-bit two's-complement integer: an `Int` kept in range by `wrap64`;
* a Go `float64` is `Float64` below: finite values are exact dyadic numbers
  `mant * 2 ^ exp`, so no rounding is hidden in the model;
* a run-time panic is the result `none`.
-/

namespace SetMaxProc

/-! ## Data model -/

/-- The type `corev1.EnvVar`, restricted to the two fields the program reads or writes. -/
structure EnvVar where
  Name : String
  Value : String
  deriving DecidableEq, Repr

/-- A Go `float64`. A finite value is the dyadic number `mant * 2 ^ exp`. -/
inductive Float64 where
  | finite (mant : Int) (exp : Int)
  | posInf
  | negInf
  | nan
  deriving DecidableEq, Repr

/-- The type `resource.Quantity` of the Kubernetes API machinery, seen through the one method
the program calls on it. `value` is the exact amount the quantity denotes, in cores;
`approx` is what `AsApproximateFloat64()` returns for it. -/
structure Quantity where
  value : ℚ
  approx : Float64

/-- The type `corev1.ResourceList`, a `map[ResourceName]Quantity`. -/
abbrev ResourceList := String → Option Quantity

/-- The type `corev1.ResourceRequirements`; either map may be `nil`. -/
structure ResourceRequirements where
  Limits : Option ResourceList
  Requests : Option ResourceList

/-- The type `corev1.Container`, restricted to the fields the program reads. -/
structure Container where
  Name : String
  Image : String
  Env : Option (List EnvVar)
  Resources : ResourceRequirements

/-- The type `corev1.PodSpec`, restricted to its containers. -/
structure PodSpec where
  Containers : List Container

/-- The type `corev1.Pod`, restricted to the fields the program reads. -/
structure Pod where
  Namespace : String
  Name : String
  Annotations : Option (String → Option String)
  Spec : PodSpec

/-- The dynamic value stored in `patchOperation.Value` (an `interface{}`): the program stores
either a `[]corev1.EnvVar` or a single `corev1.EnvVar`. -/
inductive PatchValue where
  | envList (vars : List EnvVar)
  | envVar (var : EnvVar)
  deriving DecidableEq, Repr

/-- The type `patchOperation`: one JSON patch operation. -/
structure patchOperation where
  Op : String
  Path : String
  Value : PatchValue
  deriving DecidableEq, Repr

/-- What the program takes from the machine it runs on: `runtime.NumCPU()`, and the result of
converting to `int` a `float64` that `int` cannot represent, which the Go specification leaves
to the implementation. -/
structure Host where
  NumCPU : Nat
  floatToIntOverflow : Float64 → Int

/-- The constant `corev1.ResourceCPU`. -/
def ResourceCPU : String := "cpu"

/-! ## Machine integers and floats -/

/-- Smallest value of a Go `int` on a 64-bit platform. -/
def minInt : Int := -(2 ^ 63)

/-- Largest value of a Go `int` on a 64-bit platform. -/
def maxInt : Int := 2 ^ 63 - 1

/-- Two's-complement wrap-around of an integer into the range of `int`. -/
def wrap64 (z : Int) : Int := (z + 2 ^ 63) % 2 ^ 64 - 2 ^ 63

/-- Truncation toward zero of the finite value `mant * 2 ^ exp`. -/
def truncFinite (mant exp : Int) : Int :=
  if 0 ≤ exp then mant * 2 ^ exp.toNat else Int.tdiv mant (2 ^ (-exp).toNat)

/-- The Go conversion `int(f)` of a `float64`: truncation toward zero when the result fits,
the implementation's choice otherwise. -/
def floatToInt (h : Host) : Float64 → Int
  | .finite m e =>
    let t := truncFinite m e
    if minInt ≤ t ∧ t ≤ maxInt then t else wrap64 (h.floatToIntOverflow (.finite m e))
  | f => wrap64 (h.floatToIntOverflow f)

/-- How many low bits of `a` do not fit a 53-bit significand: the number of halvings that
bring `a` below `2 ^ 53`, at most `fuel`. -/
def excessBits : Nat → Nat → Nat
  | 0, _ => 0
  | fuel + 1, a => if a < 2 ^ 53 then 0 else excessBits fuel (a / 2) + 1

/-- The Go conversion `float64(n)` of an `int`: the nearest `float64`, ties to the even
significand. Integers below `2 ^ 53` in magnitude convert with no rounding. -/
def intToFloat (n : Int) : Float64 :=
  let a := n.natAbs
  let s := excessBits 64 a
  let q := a / 2 ^ s
  let r := a % 2 ^ s
  let half := 2 ^ s / 2
  let up : Bool := decide (half < r) || (decide (r = half) && decide (0 < s) && decide (q % 2 = 1))
  let m : Nat := if up then q + 1 else q
  .finite (if n < 0 then -(m : Int) else (m : Int)) (s : Int)

/-- Comparison `x > y` of two `float64`. Every comparison with a NaN is false. -/
def Float64.gt : Float64 → Float64 → Bool
  | .finite m1 e1, .finite m2 e2 =>
    let e := min e1 e2
    decide (m2 * 2 ^ (e2 - e).toNat < m1 * 2 ^ (e1 - e).toNat)
  | .finite _ _, .negInf => true
  | .posInf, .finite _ _ => true
  | .posInf, .negInf => true
  | _, _ => false

/-- The function `strconv.Itoa`: the decimal rendering of an `int`. -/
def Itoa (n : Int) : String := toString n

/-! ## Strings -/

/-- The function `strings.ToLower`. Upper-case ASCII letters are mapped to lower case. Go also
lowers letters outside ASCII; the only ones it maps into ASCII are U+212A (to `k`) and U+0130
(to `i`), neither of which occurs in a marker of `goPatterns`, so membership of a marker in the
result is the same. -/
def ToLower (s : String) : String := String.mk (s.toList.map Char.toLower)

/-- Whether the characters `p` start the character sequence `s`. -/
def hasPrefixChars : List Char → List Char → Bool
  | [], _ => true
  | _ :: _, [] => false
  | a :: p, b :: s => a == b && hasPrefixChars p s

/-- Whether the characters `p` occur contiguously somewhere in `s`. -/
def containsChars (p : List Char) : List Char → Bool
  | [] => hasPrefixChars p []
  | c :: s => hasPrefixChars p (c :: s) || containsChars p s

/-- The function `strings.HasPrefix`. -/
def HasPrefix (s pre : String) : Bool := hasPrefixChars pre.toList s.toList

/-- The function `strings.Contains`. -/
def Contains (s substr : String) : Bool := containsChars substr.toList s.toList

/-! ## The program -/

/-- The list `goPatterns` of `isGoContainer`. -/
def goPatterns : List String := ["golang", "go:", "/go:", "scratch"]

/-- The first loop of `isGoContainer`: whether some pattern occurs in the lower-cased image. -/
def matchesGoPattern (image : String) : List String → Bool
  | [] => false
  | pattern :: rest => if Contains image pattern then true else matchesGoPattern image rest

/-- The second loop of `isGoContainer`: whether some variable name starts with `GO`. -/
def hasGoEnv : List EnvVar → Bool
  | [] => false
  | env :: rest => if HasPrefix env.Name "GO" then true else hasGoEnv rest

/-- The function `isGoContainer`. Ranging over a `nil` slice runs no iteration. -/
def isGoContainer (container : Container) : Bool :=
  let image := ToLower container.Image
  if matchesGoPattern image goPatterns then true
  else if hasGoEnv (container.Env.getD []) then true
  else false

/-- The loop of `hasGOMAXPROCS`. -/
def hasGOMAXPROCSLoop : List EnvVar → Bool
  | [] => false
  | env :: rest => if env.Name = "GOMAXPROCS" then true else hasGOMAXPROCSLoop rest

/-- The function `hasGOMAXPROCS`. -/
def hasGOMAXPROCS (container : Container) : Bool :=
  hasGOMAXPROCSLoop (container.Env.getD [])

/-- The conversion both resource branches of `calculateGOMAXPROCS` apply to the `float64`
core count: truncate, add one if something was cut off, raise to at least 1. -/
def roundUpCores (h : Host) (cpuValue : Float64) : Int :=
  let maxprocs := floatToInt h cpuValue
  let maxprocs := if Float64.gt cpuValue (intToFloat maxprocs) then wrap64 (maxprocs + 1) else maxprocs
  let maxprocs := if maxprocs < 1 then 1 else maxprocs
  maxprocs

/-- The lookup `m[key]` with the `exists` flag, on a map that may be `nil`. -/
def lookupCPU (m : Option ResourceList) : Option Quantity :=
  match m with
  | none => none
  | some rl => rl ResourceCPU

/-- The function `calculateGOMAXPROCS`. The result `none` is the run-time panic of the integer
division by zero. -/
def calculateGOMAXPROCS (h : Host) (container : Container) (pod : Pod) : Option String :=
  match lookupCPU container.Resources.Limits with
  | some cpuLimit => some (Itoa (roundUpCores h cpuLimit.approx))
  | none =>
    match lookupCPU container.Resources.Requests with
    | some cpuRequest => some (Itoa (roundUpCores h cpuRequest.approx))
    | none =>
      let maxSystemCPU : Int := h.NumCPU
      let maxContainers : Int := pod.Spec.Containers.length
      if maxContainers = 0 then none
      else
        let calculatedDefault := Int.tdiv maxSystemCPU maxContainers
        let calculatedDefault := if calculatedDefault < 1 then 1 else calculatedDefault
        let defaultValue := calculatedDefault
        let defaultValue := if defaultValue < 2 then 2 else defaultValue
        some (Itoa defaultValue)

/-- The string `fmt.Sprintf("/spec/containers/%d/env", i)`. -/
def envPathOf (i : Nat) : String := "/spec/containers/" ++ Itoa i ++ "/env"

/-- The variable the program injects. -/
def gomaxprocsVar (gomaxprocs : String) : EnvVar := { Name := "GOMAXPROCS", Value := gomaxprocs }

/-- The loop of `mutateGOMAXPROCS` from index `i` on, over the containers still to visit, with
the patches collected so far. -/
def mutateLoop (h : Host) (pod : Pod) :
    Nat → List Container → List patchOperation → Option (List patchOperation)
  | _, [], patches => some patches
  | i, container :: rest, patches =>
    if !isGoContainer container then mutateLoop h pod (i + 1) rest patches
    else if hasGOMAXPROCS container then mutateLoop h pod (i + 1) rest patches
    else
      match calculateGOMAXPROCS h container pod with
      | none => none
      | some gomaxprocs =>
        let envPath := envPathOf i
        if container.Env.isNone then
          mutateLoop h pod (i + 1) rest
            (patches ++ [{ Op := "add", Path := envPath,
                           Value := .envList [gomaxprocsVar gomaxprocs] }])
        else
          mutateLoop h pod (i + 1) rest
            (patches ++ [{ Op := "add", Path := envPath ++ "/-",
                           Value := .envVar (gomaxprocsVar gomaxprocs) }])

/-- Whether the pod carries the annotation `setmaxproc.webhook/skip` with value `"true"`. -/
def skipRequested (pod : Pod) : Bool :=
  match pod.Annotations with
  | none => false
  | some annotations =>
    match annotations "setmaxproc.webhook/skip" with
    | some skip => skip == "true"
    | none => false

/-- The function `mutateGOMAXPROCS`. The result `none` is a run-time panic. -/
def mutateGOMAXPROCS (h : Host) (pod : Pod) : Option (List patchOperation) :=
  if skipRequested pod then some []
  else mutateLoop h pod 0 pod.Spec.Containers []

/-! ## Examples used by the theorems -/

/-- A host with 8 logical CPUs whose out-of-range conversions give the smallest `int`,
as on amd64. -/
def host8 : Host := { NumCPU := 8, floatToIntOverflow := fun _ => minInt }

/-- The quantity `2500m`: 2.5 cores. -/
def q2500m : Quantity := { value := 5 / 2, approx := .finite 5 (-1) }

/-- A quantity of a whole number of cores below `2 ^ 53`. -/
def qCores (n : Nat) : Quantity := { value := n, approx := .finite n 0 }

/-- A container with the given image, variables and CPU limit and request. -/
def mkContainer (image : String) (env : Option (List EnvVar))
    (limit request : Option Quantity) : Container :=
  { Name := "app", Image := image, Env := env,
    Resources := { Limits := limit.map fun q => fun k => if k = ResourceCPU then some q else none,
                   Requests := request.map fun q => fun k => if k = ResourceCPU then some q else none } }

/-- A pod without annotations holding the given containers. -/
def mkPod (cs : List Container) : Pod :=
  { Namespace := "default", Name := "pod", Annotations := none, Spec := { Containers := cs } }

/-- The annotation map that asks for the pod to be skipped. -/
def skipAnnotations : String → Option String :=
  fun k => if k = "setmaxproc.webhook/skip" then some "true" else none

/-- A pod of three containers: a Go image with an empty variable list and a limit of `2500m`,
an `nginx` image, and a `scratch` image without resources. -/
def examplePod : Pod :=
  mkPod [mkContainer "golang:1.21" (some []) (some q2500m) none,
         mkContainer "nginx:latest" none (some (qCores 2)) none,
         mkContainer "SCRATCH" none none none]

/-- The pod `examplePod` carrying the skip annotation. -/
def skippedPod : Pod := { examplePod with Annotations := some skipAnnotations }

/-- A pod whose only container is a Go image that already declares `GOMAXPROCS`. -/
def declaredPod : Pod :=
  mkPod [mkContainer "golang:1.21" (some [⟨"GOMAXPROCS", "4"⟩]) (some (qCores 2)) none]

/-- The quantity `1e19`: more cores than an `int` can count. Its `float64` is exact, since
`10 ^ 19 = 5 ^ 19 * 2 ^ 19` and `5 ^ 19 = 19073486328125 < 2 ^ 53`. -/
def q1e19 : Quantity := { value := 10 ^ 19, approx := .finite 19073486328125 19 }

/-! ## Vocabulary of the statements -/

/-- Whether the path of `op` lies under `/spec/containers/i/`: the operation targets the
container at index `i`. -/
def pathUnder (i : Nat) (op : patchOperation) : Bool :=
  HasPrefix op.Path ("/spec/containers/" ++ Itoa i ++ "/")

/-- A container that is classified as runtime-managed and declares no variable named
`GOMAXPROCS`. -/
def wantsPatch (c : Container) : Prop :=
  isGoContainer c = true ∧ ∀ e ∈ c.Env.getD [], e.Name ≠ "GOMAXPROCS"

/-- The operation the loop body appends for a container at index `i` that passes both guards
and for which the value `gomaxprocs` was computed. -/
def patchAt (i : Nat) (container : Container) (gomaxprocs : String) : patchOperation :=
  if container.Env.isNone then
    { Op := "add", Path := envPathOf i, Value := .envList [gomaxprocsVar gomaxprocs] }
  else
    { Op := "add", Path := envPathOf i ++ "/-", Value := .envVar (gomaxprocsVar gomaxprocs) }

/-- The operations the loop appends from index `i` on, as a list comprehension over the
containers still to visit. -/
def loopOps (h : Host) (pod : Pod) : Nat → List Container → List patchOperation
  | _, [] => []
  | i, c :: rest =>
    (if isGoContainer c && !hasGOMAXPROCS c then
      [patchAt i c ((calculateGOMAXPROCS h c pod).getD "")] else [])
      ++ loopOps h pod (i + 1) rest

instance wantsPatchDecidable : DecidablePred wantsPatch := fun c => by
  unfold wantsPatch; infer_instance

/-- Reading a character sequence as a decimal numeral, most significant digit first. -/
def readDecimal (cs : List Char) (start : Nat) : Nat :=
  cs.foldl (fun acc c => 10 * acc + (c.toNat - 48)) start

/-! ## The admission handler -/

/-- A byte sequence (`[]byte`), here the text it holds. -/
abbrev Bytes := String

/-- The type `runtime.RawExtension`, restricted to its raw bytes. -/
structure RawExtension where
  Raw : Bytes
  deriving DecidableEq, Repr

/-- The type `admissionv1.AdmissionRequest`, restricted to the fields the program reads. -/
structure AdmissionRequest where
  UID : String
  Object : RawExtension
  deriving DecidableEq, Repr

/-- The type `admissionv1.AdmissionResponse`, restricted to the fields the program writes.
`Patch` is a `[]byte` and `PatchType` a pointer: both may be `nil`. -/
structure AdmissionResponse where
  UID : String
  Allowed : Bool
  Patch : Option Bytes
  PatchType : Option String
  deriving DecidableEq, Repr

/-- The type `admissionv1.AdmissionReview`. `Request` and `Response` are pointers: both may be
`nil`. -/
structure AdmissionReview where
  Kind : String
  APIVersion : String
  Request : Option AdmissionRequest
  Response : Option AdmissionResponse
  deriving DecidableEq, Repr

/-- The constant `admissionv1.PatchTypeJSONPatch`. -/
def PatchTypeJSONPatch : String := "JSONPatch"

/-- The functions of `encoding/json` the handler calls, at the types it calls them; an error
carries the text of `err.Error()`. -/
structure Codec where
  unmarshalReview : Bytes → Except String AdmissionReview
  unmarshalPod : Bytes → Except String Pod
  marshalPatches : List patchOperation → Except String Bytes
  marshalReview : AdmissionReview → Except String Bytes

/-- What a run of the handler does to the connection. -/
inductive HandlerResult where
  /-- The call `http.Error(w, message, code)`. -/
  | httpError (message : String) (code : Nat)
  /-- The header `Content-Type` is set and `body` is written, with the implicit status 200. -/
  | written (contentType : String) (body : Bytes)
  /-- A run-time panic: the handler writes no response. -/
  | panic
  deriving DecidableEq, Repr

/-- The constant `http.StatusBadRequest`. -/
def StatusBadRequest : Nat := 400

/-- The constant `http.StatusInternalServerError`. -/
def StatusInternalServerError : Nat := 500

/-- The part of `WebhookServer.mutate` that creates the admission response from the request and
the patches: the response with `UID` and `Allowed`, then `Patch` and `PatchType` when there is
a patch. An error is the failure of `json.Marshal(patches)`. -/
def buildAdmissionResponse (codec : Codec) (req : AdmissionRequest)
    (patches : List patchOperation) : Except String AdmissionResponse :=
  let admissionResponse : AdmissionResponse :=
    { UID := req.UID, Allowed := true, Patch := none, PatchType := none }
  if patches.length > 0 then
    match codec.marshalPatches patches with
    | .error err => .error err
    | .ok patchBytes =>
      let patchType := PatchTypeJSONPatch
      .ok { admissionResponse with Patch := some patchBytes, PatchType := some patchType }
  else .ok admissionResponse

/-- The end of `WebhookServer.mutate`: the response is stored in the review, the request is
cleared, and the review is encoded and written. -/
def writeReview (codec : Codec) (review : AdmissionReview)
    (admissionResponse : AdmissionResponse) : HandlerResult :=
  let review := { review with Response := some admissionResponse, Request := none }
  match codec.marshalReview review with
  | .error err => .httpError err StatusInternalServerError
  | .ok respBytes => .written "application/json" respBytes

/-- The method `WebhookServer.mutate`. `readBody` is the result of `io.ReadAll(r.Body)`.
Reading `req.Object.Raw` through a `nil` request is a nil-pointer dereference, a panic. -/
def mutateHandler (codec : Codec) (h : Host) (readBody : Except String Bytes) : HandlerResult :=
  match readBody with
  | .error err => .httpError err StatusBadRequest
  | .ok body =>
    match codec.unmarshalReview body with
    | .error err => .httpError err StatusBadRequest
    | .ok review =>
      match review.Request with
      | none => .panic
      | some req =>
        match codec.unmarshalPod req.Object.Raw with
        | .error err => .httpError err StatusBadRequest
        | .ok pod =>
          match mutateGOMAXPROCS h pod with
          | none => .panic
          | some patches =>
            match buildAdmissionResponse codec req patches with
            | .error err => .httpError err StatusInternalServerError
            | .ok admissionResponse => writeReview codec review admissionResponse

/-- A stand-in for `encoding/json` on a handful of bodies, to instantiate the theorems: the
body `{}` decodes to a review without request, the body `not json` is rejected, every other
body decodes to a review whose request carries the body as raw object; the raw object
`not a pod` is rejected and every other one decodes to `examplePod`. -/
def exampleCodec : Codec :=
  { unmarshalReview := fun body =>
      if body = "\x7b\x7d" then
        .ok { Kind := "", APIVersion := "", Request := none, Response := none }
      else if body = "not json" then .error "invalid character 'o' in literal null"
      else .ok { Kind := "AdmissionReview", APIVersion := "admission.k8s.io/v1",
                 Request := some { UID := "uid-1", Object := { Raw := body } },
                 Response := none }
    unmarshalPod := fun raw =>
      if raw = "not a pod" then .error "invalid character 'o' in literal null"
      else if raw = "skipped" then .ok skippedPod
      else .ok examplePod
    marshalPatches := fun patches => .ok (String.intercalate "," (patches.map fun op => op.Path))
    marshalReview := fun review =>
      .ok (match review.Response with
        | none => "no response"
        | some r => r.UID ++ (match r.Patch with | none => "" | some p => ":" ++ p)) }

/-- The host `h` with `n` logical CPUs instead of its own. -/
def Host.withNumCPU (h : Host) (n : Nat) : Host := { h with NumCPU := n }

/-- The pod `pod` without its annotation map. -/
def Pod.withoutAnnotations (pod : Pod) : Pod := { pod with Annotations := none }

/-- The quantities a container declares for the CPU: its limit and its request. -/
def cpuQuantities (c : Container) : List Quantity :=
  (lookupCPU c.Resources.Limits).toList ++ (lookupCPU c.Resources.Requests).toList

/-- The pod `examplePod` with the skip annotation set to `v`. -/
def annotatedPod (v : String) : Pod :=
  { examplePod with
    Annotations := some fun k => if k = "setmaxproc.webhook/skip" then some v else none }

/-- The pod `examplePod` with an annotation map that lacks the skip annotation. -/
def otherAnnotationPod : Pod :=
  { examplePod with Annotations := some fun k => if k = "team" then some "infra" else none }

/-- A host with 8 logical CPUs whose out-of-range conversions saturate, as on arm64: the
largest `int` for a value too large, the smallest for a value too small, zero for a NaN. -/
def host8sat : Host :=
  { NumCPU := 8
    floatToIntOverflow := fun f =>
      match f with
      | .finite m _ => if m < 0 then minInt else maxInt
      | .posInf => maxInt
      | .negInf => minInt
      | .nan => 0 }

/-- The quantity `9223372036854775808`, that is `2 ^ 63` cores: the least whole number of
cores an `int` cannot hold. Its `float64` is exact. -/
def q2e63 : Quantity := { value := 2 ^ 63, approx := .finite 1 63 }

/-- A pod whose only container is a Go image with a CPU limit of `2 ^ 63` cores. -/
def hugeLimitPod : Pod := mkPod [mkContainer "golang:1.21" none (some q2e63) none]

/-- A pod of three containers whose first container is that of `examplePod` and whose other
containers differ from those of `examplePod`. -/
def siblingPod : Pod :=
  mkPod [mkContainer "golang:1.21" (some []) (some q2500m) none,
         mkContainer "golang:1.22" (some [⟨"PORT", "80"⟩]) none (some (qCores 4)),
         mkContainer "redis:7" none none none]

/-- A pod whose only patched container declares a CPU limit. -/
def limitedPod : Pod :=
  mkPod [mkContainer "golang:1.21" none (some q2500m) none,
         mkContainer "nginx:latest" none none none]

/-! ## Decimal rendering -/


theorem digitChar_readBack (d : Nat) (hd : d < 10) : (Nat.digitChar d).toNat - 48 = d := by
  interval_cases d <;> rfl

theorem digitChar_ne_slash (d : Nat) (hd : d < 10) : Nat.digitChar d ≠ '/' := by
  interval_cases d <;> decide

theorem readDecimal_toDigitsCore (fuel : Nat) :
    ∀ (n : Nat) (ds : List Char), n < fuel →
      readDecimal (Nat.toDigitsCore 10 fuel n ds) 0 = readDecimal ds n := by
  induction fuel with
  | zero => intro n ds hn; omega
  | succ fuel ih =>
    intro n ds hn
    rw [Nat.toDigitsCore]
    have hmod : n % 10 < 10 := Nat.mod_lt _ (by decide)
    by_cases hz : n / 10 = 0
    · simp only [hz, if_true]
      have hn' : n % 10 = n := by omega
      simp only [readDecimal, List.foldl_cons, digitChar_readBack _ hmod]
      rw [hn', Nat.mul_zero, Nat.zero_add]
    · simp only [hz, if_false]
      rw [ih (n / 10) _ (by omega)]
      simp only [readDecimal, List.foldl_cons, digitChar_readBack _ hmod]
      congr 1
      omega

theorem toDigitsCore_no_slash (fuel : Nat) :
    ∀ (n : Nat) (ds : List Char), '/' ∉ ds → '/' ∉ Nat.toDigitsCore 10 fuel n ds := by
  induction fuel with
  | zero => intro n ds hds; simpa [Nat.toDigitsCore] using hds
  | succ fuel ih =>
    intro n ds hds
    rw [Nat.toDigitsCore]
    have hmod : n % 10 < 10 := Nat.mod_lt _ (by decide)
    have hcons : '/' ∉ Nat.digitChar (n % 10) :: ds := by
      simp only [List.mem_cons, not_or]
      exact ⟨fun h => digitChar_ne_slash _ hmod h.symm, hds⟩
    by_cases hz : n / 10 = 0
    · simpa only [hz, if_true] using hcons
    · simp only [hz, if_false]
      exact ih _ _ hcons

theorem Itoa_natCast_data (i : Nat) : (Itoa (i : Int)).data = Nat.toDigits 10 i := rfl

theorem Itoa_natCast_no_slash (i : Nat) : '/' ∉ (Itoa (i : Int)).data := by
  rw [Itoa_natCast_data]
  exact toDigitsCore_no_slash _ _ _ (by simp)

theorem Itoa_natCast_injective (i j : Nat) (h : Itoa (i : Int) = Itoa (j : Int)) : i = j := by
  have hd : Nat.toDigits 10 i = Nat.toDigits 10 j := by
    rw [← Itoa_natCast_data, ← Itoa_natCast_data, h]
  have hi := readDecimal_toDigitsCore (i + 1) i [] (Nat.lt_succ_self i)
  have hj := readDecimal_toDigitsCore (j + 1) j [] (Nat.lt_succ_self j)
  simp only [readDecimal, List.foldl_nil] at hi hj
  unfold Nat.toDigits at hd
  rw [← hi, ← hj, hd]

/-! ## Prefixes and infixes -/

theorem hasPrefixChars_iff (p s : List Char) : hasPrefixChars p s = true ↔ p <+: s := by
  induction p generalizing s with
  | nil => simp [hasPrefixChars]
  | cons a p ih =>
    cases s with
    | nil => simp [hasPrefixChars]
    | cons b s =>
      simp only [hasPrefixChars, Bool.and_eq_true, beq_iff_eq, ih, List.cons_prefix_cons]

theorem containsChars_iff (p s : List Char) : containsChars p s = true ↔ p <:+: s := by
  induction s with
  | nil =>
    simp only [containsChars, hasPrefixChars_iff, List.prefix_nil, List.infix_nil]
  | cons c s ih =>
    simp only [containsChars, Bool.or_eq_true, hasPrefixChars_iff, ih, List.infix_cons_iff]

/-- A separator that occurs in neither of two words fixes where the first word ends. -/
theorem eq_of_sep_prefix (x : Char) :
    ∀ (l1 l2 r : List Char), x ∉ l1 → x ∉ l2 → l1 ++ [x] <+: l2 ++ x :: r → l1 = l2 := by
  intro l1
  induction l1 with
  | nil =>
    intro l2 r _ h2 hp
    cases l2 with
    | nil => rfl
    | cons b l2 =>
      simp only [List.nil_append, List.cons_append, List.cons_prefix_cons] at hp
      exact absurd (hp.1 ▸ List.mem_cons_self _ _) h2
  | cons a l1 ih =>
    intro l2 r h1 h2 hp
    cases l2 with
    | nil =>
      simp only [List.nil_append, List.cons_append, List.cons_prefix_cons] at hp
      exact absurd (hp.1 ▸ List.mem_cons_self _ _) h1
    | cons b l2 =>
      simp only [List.cons_append, List.cons_prefix_cons] at hp
      rw [hp.1, ih l2 r (fun h => h1 (List.mem_cons_of_mem _ h))
        (fun h => h2 (List.mem_cons_of_mem _ h)) hp.2]


/-! ## The loop of `mutateGOMAXPROCS` -/

theorem hasGOMAXPROCSLoop_iff (env : List EnvVar) :
    hasGOMAXPROCSLoop env = true ↔ ∃ e ∈ env, e.Name = "GOMAXPROCS" := by
  induction env with
  | nil => simp [hasGOMAXPROCSLoop]
  | cons e rest ih =>
    by_cases he : e.Name = "GOMAXPROCS"
    · simp [hasGOMAXPROCSLoop, he]
    · simp [hasGOMAXPROCSLoop, he, ih]

theorem guards_iff_wantsPatch (c : Container) :
    (isGoContainer c && !hasGOMAXPROCS c) = true ↔ wantsPatch c := by
  unfold wantsPatch hasGOMAXPROCS
  rw [Bool.and_eq_true, Bool.not_eq_true', ← Bool.not_eq_true, hasGOMAXPROCSLoop_iff]
  simp

theorem calculateGOMAXPROCS_isSome (h : Host) (c : Container) (pod : Pod)
    (hne : pod.Spec.Containers ≠ []) : ∃ v, calculateGOMAXPROCS h c pod = some v := by
  unfold calculateGOMAXPROCS
  cases lookupCPU c.Resources.Limits with
  | some q => exact ⟨_, rfl⟩
  | none =>
    cases lookupCPU c.Resources.Requests with
    | some q => exact ⟨_, rfl⟩
    | none =>
      have hlen : ((pod.Spec.Containers.length : Nat) : Int) ≠ 0 := by
        simpa using hne
      simp only [hlen, if_false]
      exact ⟨_, rfl⟩

theorem mutateLoop_eq_loopOps (h : Host) (pod : Pod) (hne : pod.Spec.Containers ≠ []) :
    ∀ (cs : List Container) (i : Nat) (acc : List patchOperation),
      mutateLoop h pod i cs acc = some (acc ++ loopOps h pod i cs) := by
  intro cs
  induction cs with
  | nil => intro i acc; simp [mutateLoop, loopOps]
  | cons c rest ih =>
    intro i acc
    obtain ⟨v, hv⟩ := calculateGOMAXPROCS_isSome h c pod hne
    unfold mutateLoop loopOps
    by_cases hgo : isGoContainer c = true
    · by_cases hhas : hasGOMAXPROCS c = true
      · simp [hgo, hhas, ih]
      · by_cases hnil : c.Env.isNone = true
        · simp [hgo, hhas, hv, hnil, ih, patchAt]
        · simp [hgo, hhas, hv, hnil, ih, patchAt]
    · simp [hgo, ih]

theorem pathUnder_patchAt (i j : Nat) (c : Container) (v : String) :
    pathUnder j (patchAt i c v) = true ↔ i = j := by
  have key : ∀ r : List Char,
      ("/spec/containers/".data ++ (Itoa (j : Int)).data ++ ['/'] <+:
        "/spec/containers/".data ++ (Itoa (i : Int)).data ++ '/' :: r) ↔ i = j := by
    intro r
    constructor
    · intro hp
      rw [List.append_assoc, List.append_assoc, List.prefix_append_right_inj] at hp
      have := eq_of_sep_prefix '/' _ _ r (Itoa_natCast_no_slash j) (Itoa_natCast_no_slash i) hp
      exact (Itoa_natCast_injective _ _ (String.ext this)).symm
    · rintro rfl
      rw [List.append_assoc, List.append_assoc, List.prefix_append_right_inj]
      exact List.prefix_append_right_inj _ |>.mpr (by simp)
  unfold pathUnder patchAt HasPrefix envPathOf
  rw [hasPrefixChars_iff]
  by_cases hnil : c.Env.isNone = true
  · simp only [hnil, if_true, String.toList, String.data_append]
    exact key "env".data
  · simp only [hnil, if_false, String.toList, String.data_append]
    have := key ("env".data ++ "/-".data)
    simpa [List.append_assoc] using this

theorem skipRequested_iff (pod : Pod) :
    skipRequested pod = true ↔
      ∃ a, pod.Annotations = some a ∧ a "setmaxproc.webhook/skip" = some "true" := by
  unfold skipRequested
  cases pod.Annotations with
  | none => simp
  | some a =>
    cases hk : a "setmaxproc.webhook/skip" with
    | none => simp [hk]
    | some v => simp [hk]

theorem mutateGOMAXPROCS_eq (h : Host) (pod : Pod) :
    mutateGOMAXPROCS h pod =
      some (if skipRequested pod then [] else loopOps h pod 0 pod.Spec.Containers) := by
  unfold mutateGOMAXPROCS
  by_cases hs : skipRequested pod = true
  · simp [hs]
  · simp only [hs, if_false]
    by_cases hne : pod.Spec.Containers = []
    · rw [hne]; simp [mutateLoop, loopOps]
    · rw [mutateLoop_eq_loopOps h pod hne]; simp

theorem loopOps_mem (h : Host) (pod : Pod) :
    ∀ (cs : List Container) (i : Nat) (op : patchOperation), op ∈ loopOps h pod i cs →
      ∃ k c, i ≤ k ∧ cs[k - i]? = some c ∧ wantsPatch c ∧
        op = patchAt k c ((calculateGOMAXPROCS h c pod).getD "") := by
  intro cs
  induction cs with
  | nil => intro i op hop; simp [loopOps] at hop
  | cons c rest ih =>
    intro i op hop
    unfold loopOps at hop
    rw [List.mem_append] at hop
    rcases hop with hop | hop
    · by_cases hg : (isGoContainer c && !hasGOMAXPROCS c) = true
      · rw [if_pos hg, List.mem_singleton] at hop
        exact ⟨i, c, le_refl i, by simp, (guards_iff_wantsPatch c).mp hg, hop⟩
      · rw [if_neg hg] at hop
        exact absurd hop (List.not_mem_nil _)
    · obtain ⟨k, c', hk, hget, hw, hop'⟩ := ih (i + 1) op hop
      refine ⟨k, c', by omega, ?_, hw, hop'⟩
      have hki : k - i = (k - (i + 1)) + 1 := by omega
      rw [hki, List.getElem?_cons_succ]
      exact hget

theorem loopOps_filter_of_wants (h : Host) (pod : Pod) :
    ∀ (cs : List Container) (i j : Nat) (c : Container), i ≤ j → cs[j - i]? = some c →
      wantsPatch c →
      (loopOps h pod i cs).filter (pathUnder j) =
        [patchAt j c ((calculateGOMAXPROCS h c pod).getD "")] := by
  intro cs
  induction cs with
  | nil => intro i j c _ hget; simp at hget
  | cons c0 rest ih =>
    intro i j c hij hget hw
    have htail : ∀ op ∈ loopOps h pod (i + 1) rest, i = j → pathUnder j op = false := by
      intro op hop hij'
      obtain ⟨k, c', hk, _, _, rfl⟩ := loopOps_mem h pod rest (i + 1) op hop
      rw [Bool.eq_false_iff]
      intro hp
      have := (pathUnder_patchAt k j c' _).mp hp
      omega
    unfold loopOps
    rw [List.filter_append]
    by_cases hij' : i = j
    · subst hij'
      simp only [Nat.sub_self, List.getElem?_cons_zero, Option.some.injEq] at hget
      subst hget
      rw [if_pos ((guards_iff_wantsPatch c0).mpr hw)]
      have h1 : pathUnder i (patchAt i c0 ((calculateGOMAXPROCS h c0 pod).getD "")) = true :=
        (pathUnder_patchAt i i c0 _).mpr rfl
      have h2 : (loopOps h pod (i + 1) rest).filter (pathUnder i) = [] := by
        rw [List.filter_eq_nil_iff]
        intro op hop
        rw [htail op hop rfl]
        decide
      simp [List.filter, h1, h2]
    · have hki : j - i = (j - (i + 1)) + 1 := by omega
      rw [hki, List.getElem?_cons_succ] at hget
      rw [ih (i + 1) j c (by omega) hget hw]
      have h1 : (if (isGoContainer c0 && !hasGOMAXPROCS c0) = true then
          [patchAt i c0 ((calculateGOMAXPROCS h c0 pod).getD "")] else []).filter (pathUnder j)
          = [] := by
        rw [List.filter_eq_nil_iff]
        intro op hop
        split at hop
        · rw [List.mem_singleton] at hop
          subst hop
          intro hp
          exact hij' ((pathUnder_patchAt i j c0 _).mp hp)
        · exact absurd hop (List.not_mem_nil _)
      rw [h1, List.nil_append]

theorem loopOps_filter_of_not_wants (h : Host) (pod : Pod) (cs : List Container) (i j : Nat)
    (hnot : ∀ c, i ≤ j → cs[j - i]? = some c → ¬ wantsPatch c) :
    (loopOps h pod i cs).filter (pathUnder j) = [] := by
  rw [List.filter_eq_nil_iff]
  intro op hop hp
  obtain ⟨k, c, hk, hget, hw, rfl⟩ := loopOps_mem h pod cs i op hop
  have hkj : k = j := (pathUnder_patchAt k j c _).mp hp
  subst hkj
  exact hnot c hk hget hw

theorem loopOps_length (h : Host) (pod : Pod) :
    ∀ (cs : List Container) (i : Nat),
      (loopOps h pod i cs).length = (cs.filter fun c => decide (wantsPatch c)).length := by
  intro cs
  induction cs with
  | nil => intro i; simp [loopOps]
  | cons c rest ih =>
    intro i
    unfold loopOps
    rw [List.length_append, ih (i + 1), List.filter_cons]
    by_cases hw : wantsPatch c
    · simp [(guards_iff_wantsPatch c).mpr hw, hw, Nat.add_comm]
    · have hg : ¬ (isGoContainer c && !hasGOMAXPROCS c) = true :=
        fun hg => hw ((guards_iff_wantsPatch c).mp hg)
      simp [hg, hw]

theorem loopOps_pairwise (h : Host) (pod : Pod) :
    ∀ (cs : List Container) (i : Nat),
      (loopOps h pod i cs).Pairwise
        (fun a b => ∃ k l, k < l ∧ pathUnder k a = true ∧ pathUnder l b = true) := by
  intro cs
  induction cs with
  | nil => intro i; simp [loopOps]
  | cons c rest ih =>
    intro i
    unfold loopOps
    rw [List.pairwise_append]
    refine ⟨?_, ih (i + 1), ?_⟩
    · split
      · exact List.pairwise_singleton _ _
      · exact List.Pairwise.nil
    · intro a ha b hb
      split at ha
      · rw [List.mem_singleton] at ha
        subst ha
        obtain ⟨k, c', hk, _, _, rfl⟩ := loopOps_mem h pod rest (i + 1) b hb
        exact ⟨i, k, by omega, (pathUnder_patchAt i i c _).mpr rfl,
          (pathUnder_patchAt k k c' _).mpr rfl⟩
      · exact absurd ha (List.not_mem_nil _)

/-! ## Eligibility of pods and containers -/

theorem matchesGoPattern_iff (image : String) (ps : List String) :
    matchesGoPattern image ps = true ↔ ∃ p ∈ ps, p.data <:+: image.data := by
  induction ps with
  | nil => simp [matchesGoPattern]
  | cons p rest ih =>
    rw [matchesGoPattern]
    split_ifs with hp
    · have hp' : p.data <:+: image.data := (containsChars_iff _ _).mp hp
      exact ⟨fun _ => ⟨p, List.mem_cons_self _ _, hp'⟩, fun _ => rfl⟩
    · have hp' : ¬ p.data <:+: image.data := fun hi => hp ((containsChars_iff _ _).mpr hi)
      rw [ih]
      constructor
      · rintro ⟨q, hq, hi⟩
        exact ⟨q, List.mem_cons_of_mem _ hq, hi⟩
      · rintro ⟨q, hq, hi⟩
        rcases List.mem_cons.mp hq with hq | hq
        · exact absurd (hq ▸ hi) hp'
        · exact ⟨q, hq, hi⟩

theorem hasGoEnv_iff (env : List EnvVar) :
    hasGoEnv env = true ↔ ∃ e ∈ env, "GO".data <+: e.Name.data := by
  induction env with
  | nil => simp [hasGoEnv]
  | cons e rest ih =>
    rw [hasGoEnv]
    split_ifs with he
    · have he' : "GO".data <+: e.Name.data := (hasPrefixChars_iff _ _).mp he
      exact ⟨fun _ => ⟨e, List.mem_cons_self _ _, he'⟩, fun _ => rfl⟩
    · have he' : ¬ "GO".data <+: e.Name.data := fun hi => he ((hasPrefixChars_iff _ _).mpr hi)
      rw [ih]
      constructor
      · rintro ⟨q, hq, hi⟩
        exact ⟨q, List.mem_cons_of_mem _ hq, hi⟩
      · rintro ⟨q, hq, hi⟩
        rcases List.mem_cons.mp hq with hq | hq
        · exact absurd (hq ▸ hi) he'
        · exact ⟨q, hq, hi⟩

theorem isGoContainer_eq_true_iff (c : Container) :
    isGoContainer c = true ↔
      (∃ p ∈ goPatterns, p.data <:+: (ToLower c.Image).data) ∨
        ∃ e ∈ c.Env.getD [], "GO".data <+: e.Name.data := by
  rw [← matchesGoPattern_iff, ← hasGoEnv_iff]
  unfold isGoContainer
  by_cases h1 : matchesGoPattern (ToLower c.Image) goPatterns = true <;>
    by_cases h2 : hasGoEnv (c.Env.getD []) = true <;> simp [h1, h2]

/-- C1. For a pod that does not carry the annotation `setmaxproc.webhook/skip` with value
`"true"`, `mutateGOMAXPROCS` returns a patch list in which exactly one operation targets each
container that is classified as runtime-managed and has no variable named `GOMAXPROCS`, no
operation targets any other index, the operations come in strictly increasing container-index
order, and the number of operations is the number of such containers, hence at most the number
of containers. -/
theorem mutateGOMAXPROCS_one_patch_per_wanting_container (h : Host) (pod : Pod)
    (hskip : ¬ ∃ a, pod.Annotations = some a ∧ a "setmaxproc.webhook/skip" = some "true") :
    ∃ patches, mutateGOMAXPROCS h pod = some patches ∧
      (∀ i c, pod.Spec.Containers[i]? = some c → wantsPatch c →
        (patches.filter (pathUnder i)).length = 1) ∧
      (∀ i, (∀ c, pod.Spec.Containers[i]? = some c → ¬ wantsPatch c) →
        patches.filter (pathUnder i) = []) ∧
      patches.Pairwise
        (fun a b => ∃ i j, i < j ∧ pathUnder i a = true ∧ pathUnder j b = true) ∧
      patches.length = (pod.Spec.Containers.filter fun c => decide (wantsPatch c)).length ∧
      patches.length ≤ pod.Spec.Containers.length := by
  have hs : ¬ skipRequested pod = true := fun hs => hskip ((skipRequested_iff pod).mp hs)
  refine ⟨loopOps h pod 0 pod.Spec.Containers, ?_, ?_, ?_, ?_, ?_, ?_⟩
  · rw [mutateGOMAXPROCS_eq, if_neg hs]
  · intro i c hget hw
    rw [loopOps_filter_of_wants h pod _ 0 i c (Nat.zero_le i) (by simpa using hget) hw]
    rfl
  · intro i hnot
    exact loopOps_filter_of_not_wants h pod _ 0 i (fun c _ hget => hnot c (by simpa using hget))
  · exact loopOps_pairwise h pod _ 0
  · exact loopOps_length h pod _ 0
  · rw [loopOps_length h pod _ 0]
    exact List.length_filter_le _ _

/-- C2. For a pod whose annotation map holds `setmaxproc.webhook/skip` with value exactly
`"true"`, `mutateGOMAXPROCS` returns the empty patch list, whatever its containers are. -/
theorem mutateGOMAXPROCS_skip_annotation (h : Host) (pod : Pod) (a : String → Option String)
    (hann : pod.Annotations = some a) (hskip : a "setmaxproc.webhook/skip" = some "true") :
    mutateGOMAXPROCS h pod = some [] := by
  have hs : skipRequested pod = true := (skipRequested_iff pod).mpr ⟨a, hann, hskip⟩
  rw [mutateGOMAXPROCS_eq, if_pos hs]

/-- C3. When the container at index `i` already declares a variable named exactly `GOMAXPROCS`,
no operation that `mutateGOMAXPROCS` returns has a path under `/spec/containers/i/`, whatever
the image, the other variables, the resources and the value of that variable are. -/
theorem mutateGOMAXPROCS_keeps_declared_GOMAXPROCS (h : Host) (pod : Pod) (i : Nat)
    (c : Container) (hget : pod.Spec.Containers[i]? = some c)
    (hdecl : ∃ e ∈ c.Env.getD [], e.Name = "GOMAXPROCS") :
    ∃ patches, mutateGOMAXPROCS h pod = some patches ∧
      ∀ op ∈ patches, pathUnder i op = false := by
  refine ⟨_, mutateGOMAXPROCS_eq h pod, ?_⟩
  intro op hop
  by_cases hs : skipRequested pod = true
  · rw [if_pos hs] at hop
    exact absurd hop (List.not_mem_nil _)
  · rw [if_neg hs] at hop
    have hnil := loopOps_filter_of_not_wants h pod pod.Spec.Containers 0 i (by
      intro c' _ hget' hw
      have hcc : c' = c := by
        have : pod.Spec.Containers[i]? = some c' := by simpa using hget'
        rw [hget] at this
        exact (Option.some.inj this).symm
      subst hcc
      obtain ⟨e, he, hname⟩ := hdecl
      exact hw.2 e he hname)
    rw [List.filter_eq_nil_iff] at hnil
    rw [Bool.eq_false_iff]
    exact hnil op hop

/-- C9. When the lower-cased image of the container at index `i` contains none of the markers
and none of its variables has a name beginning with `GO`, no operation that `mutateGOMAXPROCS`
returns has a path under `/spec/containers/i/`, whatever its CPU limits and requests are. -/
theorem mutateGOMAXPROCS_leaves_other_workloads (h : Host) (pod : Pod) (i : Nat)
    (c : Container) (hget : pod.Spec.Containers[i]? = some c)
    (himage : ∀ p ∈ ["golang", "go:", "/go:", "scratch"], ¬ p.data <:+: (ToLower c.Image).data)
    (henv : ∀ e ∈ c.Env.getD [], ¬ "GO".data <+: e.Name.data) :
    ∃ patches, mutateGOMAXPROCS h pod = some patches ∧
      ∀ op ∈ patches, pathUnder i op = false := by
  have hnotgo : ¬ isGoContainer c = true := by
    rw [isGoContainer_eq_true_iff]
    rintro (⟨p, hp, hi⟩ | ⟨e, he, hi⟩)
    · exact himage p hp hi
    · exact henv e he hi
  refine ⟨_, mutateGOMAXPROCS_eq h pod, ?_⟩
  intro op hop
  by_cases hs : skipRequested pod = true
  · rw [if_pos hs] at hop
    exact absurd hop (List.not_mem_nil _)
  · rw [if_neg hs] at hop
    have hnil := loopOps_filter_of_not_wants h pod pod.Spec.Containers 0 i (by
      intro c' _ hget' hw
      have hcc : c' = c := by
        have : pod.Spec.Containers[i]? = some c' := by simpa using hget'
        rw [hget] at this
        exact (Option.some.inj this).symm
      subst hcc
      exact hnotgo hw.1)
    rw [List.filter_eq_nil_iff] at hnil
    rw [Bool.eq_false_iff]
    exact hnil op hop

/-- C10. The function `isGoContainer` returns true exactly when the lower-cased image contains
one of `golang`, `go:`, `/go:`, `scratch`, or some variable name begins with `GO`. Matching of
the image ignores case (`GoLang:1.21` and `SCRATCH` qualify); the prefix of a variable name is
case-sensitive (a variable `gopath` alone does not qualify). -/
theorem isGoContainer_characterisation :
    (∀ c : Container, isGoContainer c = true ↔
      (∃ p ∈ ["golang", "go:", "/go:", "scratch"], p.data <:+: (ToLower c.Image).data) ∨
        ∃ e ∈ c.Env.getD [], "GO".data <+: e.Name.data) ∧
    isGoContainer (mkContainer "GoLang:1.21" none none none) = true ∧
    isGoContainer (mkContainer "SCRATCH" none none none) = true ∧
    isGoContainer (mkContainer "nginx:latest" (some [⟨"gopath", "/go"⟩]) none none) = false ∧
    isGoContainer (mkContainer "nginx:latest" (some [⟨"GOPATH", "/go"⟩]) none none) = true := by
  refine ⟨isGoContainer_eq_true_iff, ?_, ?_, ?_, ?_⟩ <;> decide

theorem mutateGOMAXPROCS_one_patch_per_wanting_container_witness :
    (¬ ∃ a, examplePod.Annotations = some a ∧ a "setmaxproc.webhook/skip" = some "true") ∧
      ∃ patches, mutateGOMAXPROCS host8 examplePod = some patches ∧ patches.length = 2 :=
  have hyp : ¬ ∃ a, examplePod.Annotations = some a ∧
      a "setmaxproc.webhook/skip" = some "true" := by
    rintro ⟨a, ha, _⟩
    cases ha
  ⟨hyp, by
    obtain ⟨patches, hp, _, _, _, hlen, _⟩ :=
      mutateGOMAXPROCS_one_patch_per_wanting_container host8 examplePod hyp
    exact ⟨patches, hp, hlen.trans (by decide)⟩⟩

theorem mutateGOMAXPROCS_skip_annotation_witness :
    skippedPod.Annotations = some skipAnnotations ∧
      skipAnnotations "setmaxproc.webhook/skip" = some "true" ∧
      mutateGOMAXPROCS host8 skippedPod = some [] :=
  ⟨rfl, by decide, mutateGOMAXPROCS_skip_annotation host8 skippedPod skipAnnotations rfl
    (by decide)⟩

theorem mutateGOMAXPROCS_keeps_declared_GOMAXPROCS_witness :
    (∃ e ∈ (mkContainer "golang:1.21" (some [⟨"GOMAXPROCS", "4"⟩])
        (some (qCores 2)) none).Env.getD [], e.Name = "GOMAXPROCS") ∧
      ∃ patches, mutateGOMAXPROCS host8 declaredPod = some patches ∧
        ∀ op ∈ patches, pathUnder 0 op = false :=
  have hyp : ∃ e ∈ (mkContainer "golang:1.21" (some [⟨"GOMAXPROCS", "4"⟩])
      (some (qCores 2)) none).Env.getD [], e.Name = "GOMAXPROCS" :=
    ⟨⟨"GOMAXPROCS", "4"⟩, by simp [mkContainer], rfl⟩
  ⟨hyp, mutateGOMAXPROCS_keeps_declared_GOMAXPROCS host8 declaredPod 0 _ rfl hyp⟩

theorem mutateGOMAXPROCS_leaves_other_workloads_witness :
    (∀ p ∈ ["golang", "go:", "/go:", "scratch"],
        ¬ p.data <:+: (ToLower "nginx:latest").data) ∧
      ∃ patches, mutateGOMAXPROCS host8 examplePod = some patches ∧
        ∀ op ∈ patches, pathUnder 1 op = false :=
  have himage : ∀ p ∈ ["golang", "go:", "/go:", "scratch"],
      ¬ p.data <:+: (ToLower "nginx:latest").data := by
    intro p hp hi
    have hc : containsChars p.data (ToLower "nginx:latest").data = true :=
      (containsChars_iff _ _).mpr hi
    revert hc
    simp only [List.mem_cons, List.mem_singleton, List.not_mem_nil, or_false] at hp
    rcases hp with rfl | rfl | rfl | rfl <;> decide
  ⟨himage, mutateGOMAXPROCS_leaves_other_workloads host8 examplePod 1
    (mkContainer "nginx:latest" none (some (qCores 2)) none) rfl himage
    (by intro e he; simp [mkContainer] at he)⟩

/-! ## The shape of a patch -/

theorem envPathOf_append (i : Nat) :
    envPathOf i ++ "/-" = "/spec/containers/" ++ Itoa i ++ "/env/-" := by
  unfold envPathOf
  rw [String.append_assoc, String.append_assoc]
  rfl

theorem mutateGOMAXPROCS_patch_of_wanting (h : Host) (pod : Pod) (i : Nat) (c : Container)
    (hskip : ¬ ∃ a, pod.Annotations = some a ∧ a "setmaxproc.webhook/skip" = some "true")
    (hget : pod.Spec.Containers[i]? = some c) (hw : wantsPatch c) :
    ∃ patches v, mutateGOMAXPROCS h pod = some patches ∧
      calculateGOMAXPROCS h c pod = some v ∧
      patches.filter (pathUnder i) = [patchAt i c v] := by
  have hs : ¬ skipRequested pod = true := fun hs => hskip ((skipRequested_iff pod).mp hs)
  have hne : pod.Spec.Containers ≠ [] := by
    intro hnil
    rw [hnil] at hget
    simp at hget
  obtain ⟨v, hv⟩ := calculateGOMAXPROCS_isSome h c pod hne
  refine ⟨loopOps h pod 0 pod.Spec.Containers, v, ?_, hv, ?_⟩
  · rw [mutateGOMAXPROCS_eq, if_neg hs]
  · rw [loopOps_filter_of_wants h pod _ 0 i c (Nat.zero_le i) (by simpa using hget) hw, hv]
    rfl

/-- What the code does on the two kinds of empty variable sequence. For a patched container at
index `i` whose sequence is absent (`nil`), the one operation targeting it is an `add` at
exactly `/spec/containers/i/env` whose value is the one-element array holding `GOMAXPROCS`
with the computed value. For a sequence that is present but empty the guard `Env == nil` is
false and the code takes the append branch. -/
theorem mutateGOMAXPROCS_creates_env_when_absent (h : Host) (pod : Pod) (i : Nat)
    (c : Container)
    (hskip : ¬ ∃ a, pod.Annotations = some a ∧ a "setmaxproc.webhook/skip" = some "true")
    (hget : pod.Spec.Containers[i]? = some c) (hw : wantsPatch c) :
    ∃ patches v, mutateGOMAXPROCS h pod = some patches ∧
      calculateGOMAXPROCS h c pod = some v ∧
      (c.Env = none → patches.filter (pathUnder i) =
        [{ Op := "add", Path := "/spec/containers/" ++ Itoa i ++ "/env",
           Value := .envList [{ Name := "GOMAXPROCS", Value := v }] }]) ∧
      (c.Env = some [] → patches.filter (pathUnder i) =
        [{ Op := "add", Path := "/spec/containers/" ++ Itoa i ++ "/env/-",
           Value := .envVar { Name := "GOMAXPROCS", Value := v } }]) := by
  obtain ⟨patches, v, hp, hv, hf⟩ := mutateGOMAXPROCS_patch_of_wanting h pod i c hskip hget hw
  refine ⟨patches, v, hp, hv, ?_, ?_⟩
  · intro henv
    rw [hf]
    simp [patchAt, henv, envPathOf, gomaxprocsVar]
  · intro henv
    rw [hf, ← envPathOf_append]
    simp [patchAt, henv, gomaxprocsVar]

/-- C8. For a patched container at index `i` whose variable sequence has at least one entry,
the one operation targeting it is an `add` at exactly `/spec/containers/i/env` followed by the
append marker, whose value is the single variable `GOMAXPROCS` with the computed value, not
wrapped in an array. -/
theorem mutateGOMAXPROCS_appends_to_existing_env (h : Host) (pod : Pod) (i : Nat)
    (c : Container) (e : EnvVar) (es : List EnvVar)
    (hskip : ¬ ∃ a, pod.Annotations = some a ∧ a "setmaxproc.webhook/skip" = some "true")
    (hget : pod.Spec.Containers[i]? = some c) (hw : wantsPatch c)
    (henv : c.Env = some (e :: es)) :
    ∃ patches v, mutateGOMAXPROCS h pod = some patches ∧
      calculateGOMAXPROCS h c pod = some v ∧
      patches.filter (pathUnder i) =
        [{ Op := "add", Path := "/spec/containers/" ++ Itoa i ++ "/env/-",
           Value := .envVar { Name := "GOMAXPROCS", Value := v } }] := by
  obtain ⟨patches, v, hp, hv, hf⟩ := mutateGOMAXPROCS_patch_of_wanting h pod i c hskip hget hw
  refine ⟨patches, v, hp, hv, ?_⟩
  rw [hf, ← envPathOf_append]
  simp [patchAt, henv, gomaxprocsVar]

set_option maxRecDepth 100000 in
/-- C7 fails on the code. A patched container whose variable sequence is empty must get an
`add` at `/spec/containers/0/env` with a one-element array as value, as the comments of both
branches say. For a sequence that is present but empty (`"env": []`) the guard `Env == nil`
is false: the code emits the `add` at that path followed by the append marker, with the single
variable as value. -/
theorem mutateGOMAXPROCS_empty_env_gets_append_form :
    (mkContainer "golang:1.21" (some []) (some (qCores 1)) none).Env = some [] ∧
      mutateGOMAXPROCS host8 (mkPod [mkContainer "golang:1.21" (some []) (some (qCores 1)) none])
        = some [{ Op := "add", Path := "/spec/containers/0/env/-",
                  Value := .envVar { Name := "GOMAXPROCS", Value := "1" } }] := by
  constructor
  · rfl
  · decide

set_option maxRecDepth 100000 in
theorem mutateGOMAXPROCS_creates_env_when_absent_witness :
    wantsPatch (mkContainer "golang:1.21" none (some (qCores 1)) none) ∧
      ∃ patches, mutateGOMAXPROCS host8
          (mkPod [mkContainer "golang:1.21" none (some (qCores 1)) none]) = some patches ∧
        patches.filter (pathUnder 0) =
          [{ Op := "add", Path := "/spec/containers/0/env",
             Value := .envList [{ Name := "GOMAXPROCS", Value := "1" }] }] :=
  have hw : wantsPatch (mkContainer "golang:1.21" none (some (qCores 1)) none) := by decide
  ⟨hw, by
    obtain ⟨patches, v, hp, hv, hnone, _⟩ :=
      mutateGOMAXPROCS_creates_env_when_absent host8
        (mkPod [mkContainer "golang:1.21" none (some (qCores 1)) none]) 0 _
        (by rintro ⟨a, ha, _⟩; cases ha) rfl hw
    have hv1 : calculateGOMAXPROCS host8 (mkContainer "golang:1.21" none (some (qCores 1)) none)
        (mkPod [mkContainer "golang:1.21" none (some (qCores 1)) none]) = some "1" := by decide
    have hv' : v = "1" := Option.some.inj (hv.symm.trans hv1)
    subst hv'
    exact ⟨patches, hp, hnone rfl⟩⟩

set_option maxRecDepth 100000 in
theorem mutateGOMAXPROCS_appends_to_existing_env_witness :
    wantsPatch (mkContainer "golang:1.21" (some [⟨"PORT", "80"⟩]) (some (qCores 1)) none) ∧
      ∃ patches, mutateGOMAXPROCS host8
          (mkPod [mkContainer "golang:1.21" (some [⟨"PORT", "80"⟩]) (some (qCores 1)) none])
            = some patches ∧
        patches.filter (pathUnder 0) =
          [{ Op := "add", Path := "/spec/containers/0/env/-",
             Value := .envVar { Name := "GOMAXPROCS", Value := "1" } }] :=
  have hw : wantsPatch
      (mkContainer "golang:1.21" (some [⟨"PORT", "80"⟩]) (some (qCores 1)) none) := by decide
  ⟨hw, by
    obtain ⟨patches, v, hp, hv, hf⟩ :=
      mutateGOMAXPROCS_appends_to_existing_env host8
        (mkPod [mkContainer "golang:1.21" (some [⟨"PORT", "80"⟩]) (some (qCores 1)) none]) 0 _
        ⟨"PORT", "80"⟩ [] (by rintro ⟨a, ha, _⟩; cases ha) rfl hw rfl
    have hv1 : calculateGOMAXPROCS host8
        (mkContainer "golang:1.21" (some [⟨"PORT", "80"⟩]) (some (qCores 1)) none)
        (mkPod [mkContainer "golang:1.21" (some [⟨"PORT", "80"⟩]) (some (qCores 1)) none])
          = some "1" := by decide
    have hv' : v = "1" := Option.some.inj (hv.symm.trans hv1)
    subst hv'
    exact ⟨patches, hp, hf⟩⟩

/-! ## The computed value -/

theorem lookupCPU_eq_none (m : Option ResourceList)
    (hm : ∀ rl, m = some rl → rl "cpu" = none) : lookupCPU m = none := by
  cases m with
  | none => rfl
  | some rl => exact hm rl rfl

/-- C6. For a container with neither a CPU limit nor a CPU request, in a pod of `k ≥ 1`
containers on a host with `N` logical CPUs, `calculateGOMAXPROCS` returns the decimal string of
`max (max (N / k) 1) 2`, where `/` is the floor division of natural numbers. -/
theorem calculateGOMAXPROCS_default (h : Host) (c : Container) (pod : Pod)
    (hlim : ∀ rl, c.Resources.Limits = some rl → rl "cpu" = none)
    (hreq : ∀ rl, c.Resources.Requests = some rl → rl "cpu" = none)
    (hk : 1 ≤ pod.Spec.Containers.length) :
    calculateGOMAXPROCS h c pod =
      some (Itoa ((max (max (h.NumCPU / pod.Spec.Containers.length) 1) 2 : Nat) : Int)) := by
  unfold calculateGOMAXPROCS
  rw [lookupCPU_eq_none _ hlim, lookupCPU_eq_none _ hreq]
  have hlen : ((pod.Spec.Containers.length : Nat) : Int) ≠ 0 := by omega
  have hdiv : Int.tdiv (h.NumCPU : Int) (pod.Spec.Containers.length : Int) =
      ((h.NumCPU / pod.Spec.Containers.length : Nat) : Int) := by
    rw [Int.tdiv_eq_ediv (Int.ofNat_nonneg _) (Int.ofNat_nonneg _)]
    norm_cast
  simp only [hlen, if_false, hdiv]
  congr 2
  generalize h.NumCPU / pod.Spec.Containers.length = d
  split_ifs <;> omega

theorem calculateGOMAXPROCS_default_witness :
    1 ≤ (mkPod (List.replicate 4 (mkContainer "golang:1.21" none none none))).Spec.Containers.length ∧
      calculateGOMAXPROCS host8 (mkContainer "golang:1.21" none none none)
        (mkPod (List.replicate 4 (mkContainer "golang:1.21" none none none))) = some "2" ∧
      calculateGOMAXPROCS host8 (mkContainer "golang:1.21" none none none)
        (mkPod (List.replicate 3 (mkContainer "golang:1.21" none none none))) = some "2" ∧
      calculateGOMAXPROCS host8 (mkContainer "golang:1.21" none none none)
        (mkPod (List.replicate 2 (mkContainer "golang:1.21" none none none))) = some "4" :=
  have hnone : ∀ rl : ResourceList, (none : Option ResourceList) = some rl → rl "cpu" = none :=
    fun _ hrl => Option.noConfusion hrl
  ⟨by decide,
    (calculateGOMAXPROCS_default host8 (mkContainer "golang:1.21" none none none)
      (mkPod (List.replicate 4 (mkContainer "golang:1.21" none none none)))
      hnone hnone (by decide)).trans (by decide),
    (calculateGOMAXPROCS_default host8 (mkContainer "golang:1.21" none none none)
      (mkPod (List.replicate 3 (mkContainer "golang:1.21" none none none)))
      hnone hnone (by decide)).trans (by decide),
    (calculateGOMAXPROCS_default host8 (mkContainer "golang:1.21" none none none)
      (mkPod (List.replicate 2 (mkContainer "golang:1.21" none none none)))
      hnone hnone (by decide)).trans (by decide)⟩

/-! ## Conversions between `float64` and `int` -/

theorem excessBits_le (fuel : Nat) :
    ∀ (a m k : Nat), a = m * 2 ^ k → m < 2 ^ 53 → excessBits fuel a ≤ k := by
  induction fuel with
  | zero => intro a m k _ _; simp [excessBits]
  | succ fuel ih =>
    intro a m k ha hm
    rw [excessBits]
    split_ifs with hlt
    · exact Nat.zero_le _
    · cases k with
      | zero =>
        rw [pow_zero, Nat.mul_one] at ha
        omega
      | succ k =>
        have hhalf : a / 2 = m * 2 ^ k := by
          rw [ha, pow_succ, ← Nat.mul_assoc]
          exact Nat.mul_div_cancel _ (by decide)
        have := ih (a / 2) m k hhalf hm
        omega

theorem intToFloat_exact (n : Int) (hdvd : 2 ^ excessBits 64 n.natAbs ∣ n.natAbs) :
    ∃ m' : Int, intToFloat n = .finite m' (excessBits 64 n.natAbs : Nat) ∧
      m' * 2 ^ excessBits 64 n.natAbs = n := by
  have hr : n.natAbs % 2 ^ excessBits 64 n.natAbs = 0 := Nat.mod_eq_zero_of_dvd hdvd
  have hq : n.natAbs / 2 ^ excessBits 64 n.natAbs * 2 ^ excessBits 64 n.natAbs = n.natAbs :=
    Nat.div_mul_cancel hdvd
  have hup : (decide (2 ^ excessBits 64 n.natAbs / 2 < n.natAbs % 2 ^ excessBits 64 n.natAbs) ||
      (decide (n.natAbs % 2 ^ excessBits 64 n.natAbs = 2 ^ excessBits 64 n.natAbs / 2) &&
        decide (0 < excessBits 64 n.natAbs) &&
        decide (n.natAbs / 2 ^ excessBits 64 n.natAbs % 2 = 1))) = false := by
    rw [hr]
    cases hs : excessBits 64 n.natAbs with
    | zero => simp
    | succ s =>
      have : 2 ^ (s + 1) / 2 = 2 ^ s := by
        rw [pow_succ]; exact Nat.mul_div_cancel _ (by decide)
      have hpos : 0 < 2 ^ s := Nat.pow_pos (by decide)
      simp [this]
      omega
  unfold intToFloat
  simp only [hup, Bool.false_eq_true, if_false]
  refine ⟨_, rfl, ?_⟩
  have hq' : ((n.natAbs / 2 ^ excessBits 64 n.natAbs : Nat) : Int) *
      2 ^ excessBits 64 n.natAbs = (n.natAbs : Int) := by
    exact_mod_cast hq
  split_ifs with hneg
  · rw [neg_mul, hq']
    omega
  · rw [hq']
    omega

theorem wrap64_of_inRange (z : Int) (hlo : minInt ≤ z) (hhi : z ≤ maxInt) : wrap64 z = z := by
  unfold wrap64
  unfold minInt at hlo
  unfold maxInt at hhi
  omega

theorem excessBits_of_lt (a : Nat) (ha : a < 2 ^ 53) : excessBits 64 a = 0 := by
  rw [excessBits, if_pos ha]

theorem intToFloat_small (t : Int) (ht : t.natAbs < 2 ^ 53) : intToFloat t = .finite t 0 := by
  have hs := excessBits_of_lt t.natAbs ht
  obtain ⟨m', hm', hval⟩ := intToFloat_exact t (by rw [hs]; exact one_dvd _)
  rw [hs] at hm' hval
  rw [pow_zero, mul_one] at hval
  rw [hm', hval]
  rfl

theorem roundUpCores_ofNat (h : Host) (m : Int) (k : Nat) (hm : m.natAbs < 2 ^ 53)
    (hlo : minInt ≤ m * 2 ^ k) (hhi : m * 2 ^ k ≤ maxInt) :
    roundUpCores h (.finite m (k : Int)) = max 1 (m * 2 ^ k) := by
  have habs : (m * 2 ^ k).natAbs = m.natAbs * 2 ^ k := by
    rw [Int.natAbs_mul, Int.natAbs_pow]
    rfl
  have hsk : excessBits 64 (m * 2 ^ k).natAbs ≤ k := excessBits_le 64 _ _ k habs hm
  have hdvd : 2 ^ k ∣ (m * 2 ^ k).natAbs := by
    rw [habs]
    exact Dvd.intro_left _ rfl
  obtain ⟨m', hm', hval⟩ := intToFloat_exact (m * 2 ^ k) ((pow_dvd_pow 2 hsk).trans hdvd)
  generalize excessBits 64 (m * 2 ^ k).natAbs = s at hsk hm' hval
  have hm'eq : m' = m * 2 ^ (k - s) := by
    have h2 : (2 : Int) ^ k = 2 ^ (k - s) * 2 ^ s := by
      rw [← pow_add, Nat.sub_add_cancel hsk]
    rw [h2, ← mul_assoc] at hval
    exact Int.eq_of_mul_eq_mul_right (pow_ne_zero _ (by decide)) hval
  have hgt : Float64.gt (.finite m (k : Int)) (.finite m' (s : Nat)) = false := by
    unfold Float64.gt
    have hmin : min (k : Int) (s : Int) = (s : Int) := min_eq_right (Int.ofNat_le.mpr hsk)
    have h1 : ((s : Int) - (s : Int)).toNat = 0 := by simp
    have h2 : ((k : Int) - (s : Int)).toNat = k - s := by omega
    simp only [hmin, h1, h2, pow_zero, mul_one, hm'eq, lt_self_iff_false, decide_False]
  have hfi : floatToInt h (.finite m (k : Int)) = m * 2 ^ k := by
    unfold floatToInt truncFinite
    have hk0 : (0 : Int) ≤ (k : Int) := Int.ofNat_nonneg k
    simp only [hk0, if_true, Int.toNat_ofNat, hlo, hhi, and_self]
  unfold roundUpCores
  simp only [hfi, hm', hgt, Bool.false_eq_true, if_false]
  rw [max_def]
  split_ifs <;> omega

theorem roundUpCores_negSucc (h : Host) (m : Int) (k : Nat) (hm : m.natAbs < 2 ^ 53) :
    ∃ z : Int, roundUpCores h (.finite m (Int.negSucc k)) = max 1 z ∧
      (z - 1) * 2 ^ (k + 1) < m ∧ m ≤ z * 2 ^ (k + 1) := by
  have hdpos : (0 : Int) < 2 ^ (k + 1) := pow_pos (by decide) _
  generalize hd : (2 : Int) ^ (k + 1) = d at hdpos
  have htabs : (Int.tdiv m d).natAbs < 2 ^ 53 := by
    rw [Int.natAbs_tdiv]
    exact lt_of_le_of_lt (Nat.div_le_self _ _) hm
  have htlo : minInt ≤ Int.tdiv m d := by unfold minInt; omega
  have hthi : Int.tdiv m d ≤ maxInt := by unfold maxInt; omega
  have hgt : Float64.gt (.finite m (Int.negSucc k)) (.finite (Int.tdiv m d) 0) =
      decide (Int.tdiv m d * d < m) := by
    unfold Float64.gt
    have hmin : min (Int.negSucc k) 0 = Int.negSucc k :=
      min_eq_left (le_of_lt (Int.negSucc_lt_zero k))
    have h1 : ((0 : Int) - Int.negSucc k).toNat = k + 1 := by
      rw [Int.negSucc_eq]; omega
    have h2 : (Int.negSucc k - Int.negSucc k).toNat = 0 := by simp
    simp only [hmin, h1, h2, pow_zero, mul_one, hd]
  have hround : roundUpCores h (.finite m (Int.negSucc k)) =
      max 1 (if Int.tdiv m d * d < m then Int.tdiv m d + 1 else Int.tdiv m d) := by
    unfold roundUpCores floatToInt truncFinite
    have hneg : ¬ (0 : Int) ≤ Int.negSucc k := not_le.mpr (Int.negSucc_lt_zero k)
    have hexp : (-Int.negSucc k).toNat = k + 1 := by
      rw [Int.negSucc_eq]; omega
    simp only [hneg, if_false, hexp, hd, htlo, hthi, and_self, if_true,
      intToFloat_small _ htabs, hgt, decide_eq_true_eq]
    have hw : wrap64 (Int.tdiv m d + 1) = Int.tdiv m d + 1 :=
      wrap64_of_inRange _ (by unfold minInt; omega) (by unfold maxInt; omega)
    rw [hw, max_def]
    split_ifs <;> omega
  refine ⟨_, hround, ?_⟩
  have hdm := Int.tdiv_add_tmod m d
  have hmul : Int.tdiv m d * d = d * Int.tdiv m d := mul_comm _ _
  by_cases hm0 : 0 ≤ m
  · have hr0 : 0 ≤ Int.tmod m d := Int.tmod_nonneg d hm0
    have hrd : Int.tmod m d < d := Int.tmod_lt_of_pos m hdpos
    split_ifs with hlt
    · constructor
      · rw [add_sub_cancel_right]; exact hlt
      · rw [add_mul, one_mul]; omega
    · constructor
      · rw [sub_mul, one_mul]; omega
      · omega
  · have hneg : 0 ≤ -m := by omega
    have hr0 : 0 ≤ Int.tmod (-m) d := Int.tmod_nonneg d hneg
    have hrd : Int.tmod (-m) d < d := Int.tmod_lt_of_pos (-m) hdpos
    have hdm' := Int.tdiv_add_tmod (-m) d
    rw [Int.neg_tdiv] at hdm'
    have hcomm : d * -(Int.tdiv m d) = -(d * Int.tdiv m d) := mul_neg _ _
    split_ifs with hlt
    · omega
    · constructor
      · rw [sub_mul, one_mul]; omega
      · omega

theorem roundUpCores_eq_ceil (h : Host) (m e : Int) (hm : m.natAbs < 2 ^ 53)
    (hlo : -(2 : ℚ) ^ 63 ≤ (m : ℚ) * (2 : ℚ) ^ e) (hhi : (m : ℚ) * (2 : ℚ) ^ e < 2 ^ 63) :
    roundUpCores h (.finite m e) = max 1 ⌈(m : ℚ) * (2 : ℚ) ^ e⌉ := by
  cases e with
  | ofNat k =>
    have hx : (m : ℚ) * (2 : ℚ) ^ (Int.ofNat k) = ((m * 2 ^ k : Int) : ℚ) := by
      rw [Int.ofNat_eq_coe, zpow_natCast]
      push_cast
      rfl
    rw [hx] at hlo hhi ⊢
    rw [Int.ceil_intCast]
    have hlo' : -(2 : Int) ^ 63 ≤ m * 2 ^ k := by exact_mod_cast hlo
    have hhi' : m * 2 ^ k < (2 : Int) ^ 63 := by exact_mod_cast hhi
    exact roundUpCores_ofNat h m k hm (by unfold minInt; omega) (by unfold maxInt; omega)
  | negSucc k =>
    obtain ⟨z, hz, h1, h2⟩ := roundUpCores_negSucc h m k hm
    have hd : (0 : ℚ) < 2 ^ (k + 1) := pow_pos (by norm_num) _
    have hceil : ⌈(m : ℚ) * (2 : ℚ) ^ (Int.negSucc k)⌉ = z := by
      rw [zpow_negSucc, ← div_eq_mul_inv, Int.ceil_eq_iff]
      constructor
      · rw [lt_div_iff₀ hd]
        exact_mod_cast h1
      · rw [div_le_iff₀ hd]
        exact_mod_cast h2
    rw [hz, hceil]

theorem wrap64_inRange (z : Int) : minInt ≤ wrap64 z ∧ wrap64 z ≤ maxInt := by
  unfold wrap64 minInt maxInt
  omega

theorem floatToInt_inRange (h : Host) (f : Float64) :
    minInt ≤ floatToInt h f ∧ floatToInt h f ≤ maxInt := by
  cases f with
  | finite m e =>
    unfold floatToInt
    simp only
    split_ifs with ht
    · exact ht
    · exact wrap64_inRange _
  | posInf => exact wrap64_inRange _
  | negInf => exact wrap64_inRange _
  | nan => exact wrap64_inRange _

theorem roundUpCores_inRange (h : Host) (f : Float64) :
    1 ≤ roundUpCores h f ∧ roundUpCores h f ≤ maxInt := by
  have hr := floatToInt_inRange h f
  have hw := wrap64_inRange (floatToInt h f + 1)
  have hmax : (1 : Int) ≤ maxInt := by unfold maxInt; omega
  unfold roundUpCores
  simp only
  split_ifs <;> omega

theorem Itoa_ne_of_beyond_maxInt (r : Int) (n : Nat) (hr1 : 1 ≤ r) (hr : r ≤ maxInt)
    (hn : 2 ^ 63 ≤ n) : Itoa r ≠ Itoa (n : Int) := by
  intro heq
  have hcast : r = ((r.toNat : Nat) : Int) := by omega
  rw [hcast] at heq
  have := Itoa_natCast_injective _ _ heq
  unfold maxInt at hr
  omega

/-- C4, amended. For a container that declares a CPU limit whose core count as a `float64`
(what `AsApproximateFloat64` returns) is the finite value `f = m * 2 ^ e` with a 53-bit
significand and lies in the range of `int`, `calculateGOMAXPROCS` returns the decimal string of
`max 1 ⌈f⌉`, whatever the CPU request, the number of containers and the host are. -/
theorem calculateGOMAXPROCS_cpu_limit (h : Host) (c : Container) (pod : Pod)
    (rl : ResourceList) (q : Quantity) (m e : Int)
    (hlim : c.Resources.Limits = some rl) (hcpu : rl "cpu" = some q)
    (happrox : q.approx = .finite m e) (hm : m.natAbs < 2 ^ 53)
    (hlo : -(2 : ℚ) ^ 63 ≤ (m : ℚ) * (2 : ℚ) ^ e) (hhi : (m : ℚ) * (2 : ℚ) ^ e < 2 ^ 63) :
    calculateGOMAXPROCS h c pod = some (Itoa (max 1 ⌈(m : ℚ) * (2 : ℚ) ^ e⌉)) := by
  have hlook : lookupCPU c.Resources.Limits = some q := by
    rw [hlim]; exact hcpu
  unfold calculateGOMAXPROCS
  rw [hlook]
  simp only
  rw [happrox, roundUpCores_eq_ceil h m e hm hlo hhi]

/-- C5, amended. For a container that declares no CPU limit (the limits map is absent, or has
no `cpu` key) but a CPU request whose core count as a `float64` is the finite value
`f = m * 2 ^ e` with a 53-bit significand and lies in the range of `int`,
`calculateGOMAXPROCS` returns the decimal string of `max 1 ⌈f⌉`; this is the value it returns
for any container that declares the same quantity as its CPU limit. -/
theorem calculateGOMAXPROCS_cpu_request (h : Host) (c : Container) (pod : Pod)
    (rr : ResourceList) (q : Quantity) (m e : Int)
    (hlim : ∀ rl, c.Resources.Limits = some rl → rl "cpu" = none)
    (hreq : c.Resources.Requests = some rr) (hcpu : rr "cpu" = some q)
    (happrox : q.approx = .finite m e) (hm : m.natAbs < 2 ^ 53)
    (hlo : -(2 : ℚ) ^ 63 ≤ (m : ℚ) * (2 : ℚ) ^ e) (hhi : (m : ℚ) * (2 : ℚ) ^ e < 2 ^ 63) :
    calculateGOMAXPROCS h c pod = some (Itoa (max 1 ⌈(m : ℚ) * (2 : ℚ) ^ e⌉)) ∧
      ∀ (c' : Container) (pod' : Pod) (rl' : ResourceList),
        c'.Resources.Limits = some rl' → rl' "cpu" = some q →
          calculateGOMAXPROCS h c' pod' = calculateGOMAXPROCS h c pod := by
  have hlook : lookupCPU c.Resources.Requests = some q := by
    rw [hreq]; exact hcpu
  have hval : calculateGOMAXPROCS h c pod = some (Itoa (roundUpCores h q.approx)) := by
    unfold calculateGOMAXPROCS
    rw [lookupCPU_eq_none _ hlim, hlook]
  constructor
  · rw [hval, happrox, roundUpCores_eq_ceil h m e hm hlo hhi]
  · intro c' pod' rl' hlim' hcpu'
    have hlook' : lookupCPU c'.Resources.Limits = some q := by
      rw [hlim']; exact hcpu'
    rw [hval]
    unfold calculateGOMAXPROCS
    rw [hlook']

theorem ceil_q1e19 : max 1 ⌈q1e19.value⌉ = ((10 ^ 19 : Nat) : Int) := by
  have hv : q1e19.value = ((10 ^ 19 : Nat) : ℚ) := by
    unfold q1e19
    norm_num
  rw [hv, Int.ceil_natCast]
  norm_num

set_option maxRecDepth 100000 in
/-- C4 as stated fails: for a CPU limit of `1e19` cores the claim promises the string
`10000000000000000000`, which no host returns since an `int` cannot hold that number; a host
whose out-of-range conversion gives the smallest `int` returns `"1"`. -/
theorem calculateGOMAXPROCS_cpu_limit_beyond_int :
    q1e19.value = 10 ^ 19 ∧
    calculateGOMAXPROCS host8 (mkContainer "golang:1.21" none (some q1e19) none)
      (mkPod [mkContainer "golang:1.21" none (some q1e19) none]) = some "1" ∧
    ¬ ∃ h : Host, calculateGOMAXPROCS h (mkContainer "golang:1.21" none (some q1e19) none)
      (mkPod [mkContainer "golang:1.21" none (some q1e19) none])
        = some (Itoa (max 1 ⌈q1e19.value⌉)) := by
  refine ⟨rfl, by decide, ?_⟩
  rintro ⟨h, hh⟩
  have hcalc : calculateGOMAXPROCS h (mkContainer "golang:1.21" none (some q1e19) none)
      (mkPod [mkContainer "golang:1.21" none (some q1e19) none])
        = some (Itoa (roundUpCores h q1e19.approx)) := rfl
  rw [hcalc, ceil_q1e19] at hh
  have hr := roundUpCores_inRange h q1e19.approx
  exact Itoa_ne_of_beyond_maxInt _ _ hr.1 hr.2 (by norm_num) (Option.some.inj hh)

set_option maxRecDepth 100000 in
/-- C5 as stated fails: for a CPU request of `1e19` cores and no limit the claim promises the
string `10000000000000000000`, which no host returns since an `int` cannot hold that number; a
host whose out-of-range conversion gives the smallest `int` returns `"1"`. -/
theorem calculateGOMAXPROCS_cpu_request_beyond_int :
    q1e19.value = 10 ^ 19 ∧
    calculateGOMAXPROCS host8 (mkContainer "golang:1.21" none none (some q1e19))
      (mkPod [mkContainer "golang:1.21" none none (some q1e19)]) = some "1" ∧
    ¬ ∃ h : Host, calculateGOMAXPROCS h (mkContainer "golang:1.21" none none (some q1e19))
      (mkPod [mkContainer "golang:1.21" none none (some q1e19)])
        = some (Itoa (max 1 ⌈q1e19.value⌉)) := by
  refine ⟨rfl, by decide, ?_⟩
  rintro ⟨h, hh⟩
  have hcalc : calculateGOMAXPROCS h (mkContainer "golang:1.21" none none (some q1e19))
      (mkPod [mkContainer "golang:1.21" none none (some q1e19)])
        = some (Itoa (roundUpCores h q1e19.approx)) := rfl
  rw [hcalc, ceil_q1e19] at hh
  have hr := roundUpCores_inRange h q1e19.approx
  exact Itoa_ne_of_beyond_maxInt _ _ hr.1 hr.2 (by norm_num) (Option.some.inj hh)

set_option maxRecDepth 100000 in
theorem calculateGOMAXPROCS_cpu_limit_witness :
    (-(2 : ℚ) ^ 63 ≤ ((5 : Int) : ℚ) * (2 : ℚ) ^ (-1 : Int) ∧
      ((5 : Int) : ℚ) * (2 : ℚ) ^ (-1 : Int) < 2 ^ 63) ∧
    calculateGOMAXPROCS host8 (mkContainer "golang:1.21" none (some q2500m) (some (qCores 7)))
      examplePod = some (Itoa (max 1 ⌈((5 : Int) : ℚ) * (2 : ℚ) ^ (-1 : Int)⌉)) ∧
    calculateGOMAXPROCS host8 (mkContainer "golang:1.21" none (some q2500m) (some (qCores 7)))
      examplePod = some "3" ∧
    calculateGOMAXPROCS host8 (mkContainer "golang:1.21" none (some (qCores 2)) none)
      examplePod = some "2" ∧
    calculateGOMAXPROCS host8 (mkContainer "golang:1.21" none (some (qCores 0)) (some (qCores 5)))
      examplePod = some "1" :=
  have hlo : -(2 : ℚ) ^ 63 ≤ ((5 : Int) : ℚ) * (2 : ℚ) ^ (-1 : Int) := by norm_num
  have hhi : ((5 : Int) : ℚ) * (2 : ℚ) ^ (-1 : Int) < 2 ^ 63 := by norm_num
  ⟨⟨hlo, hhi⟩,
    calculateGOMAXPROCS_cpu_limit host8
      (mkContainer "golang:1.21" none (some q2500m) (some (qCores 7))) examplePod
      (fun k => if k = ResourceCPU then some q2500m else none) q2500m 5 (-1) rfl rfl rfl
      (by decide) hlo hhi,
    by decide, by decide, by decide⟩

set_option maxRecDepth 100000 in
theorem calculateGOMAXPROCS_cpu_request_witness :
    (-(2 : ℚ) ^ 63 ≤ ((5 : Int) : ℚ) * (2 : ℚ) ^ (-1 : Int) ∧
      ((5 : Int) : ℚ) * (2 : ℚ) ^ (-1 : Int) < 2 ^ 63) ∧
    calculateGOMAXPROCS host8 (mkContainer "golang:1.21" none none (some q2500m))
      examplePod = some (Itoa (max 1 ⌈((5 : Int) : ℚ) * (2 : ℚ) ^ (-1 : Int)⌉)) ∧
    calculateGOMAXPROCS host8 (mkContainer "golang:1.21" none none (some q2500m))
      examplePod = some "3" :=
  have hlo : -(2 : ℚ) ^ 63 ≤ ((5 : Int) : ℚ) * (2 : ℚ) ^ (-1 : Int) := by norm_num
  have hhi : ((5 : Int) : ℚ) * (2 : ℚ) ^ (-1 : Int) < 2 ^ 63 := by norm_num
  ⟨⟨hlo, hhi⟩,
    (calculateGOMAXPROCS_cpu_request host8
      (mkContainer "golang:1.21" none none (some q2500m)) examplePod
      (fun k => if k = ResourceCPU then some q2500m else none) q2500m 5 (-1)
      (fun _ hrl => Option.noConfusion hrl) rfl rfl rfl (by decide) hlo hhi).1,
    by decide⟩

/-! ## What the patch list depends on -/

theorem loopOps_congr (h1 h2 : Host) (pod1 pod2 : Pod) :
    ∀ (cs : List Container) (i : Nat),
      (∀ c ∈ cs, wantsPatch c →
        calculateGOMAXPROCS h1 c pod1 = calculateGOMAXPROCS h2 c pod2) →
      loopOps h1 pod1 i cs = loopOps h2 pod2 i cs := by
  intro cs
  induction cs with
  | nil => intro i _; rfl
  | cons c rest ih =>
    intro i hcalc
    unfold loopOps
    rw [ih (i + 1) (fun c' hc' => hcalc c' (List.mem_cons_of_mem _ hc'))]
    by_cases hg : (isGoContainer c && !hasGOMAXPROCS c) = true
    · rw [if_pos hg, if_pos hg,
        hcalc c (List.mem_cons_self _ _) ((guards_iff_wantsPatch c).mp hg)]
    · rw [if_neg hg, if_neg hg]

theorem calculateGOMAXPROCS_congr_pod (h : Host) (c : Container) (pod1 pod2 : Pod)
    (hlen : pod1.Spec.Containers.length = pod2.Spec.Containers.length) :
    calculateGOMAXPROCS h c pod1 = calculateGOMAXPROCS h c pod2 := by
  unfold calculateGOMAXPROCS
  rw [hlen]

/-- C11. For a pod whose skip annotation is absent or has a value other than exactly `"true"`,
`mutateGOMAXPROCS` returns the patch list it returns for the same pod without its annotation
map. -/
theorem mutateGOMAXPROCS_ignores_other_annotations (h : Host) (pod : Pod)
    (hskip : ¬ ∃ a, pod.Annotations = some a ∧ a "setmaxproc.webhook/skip" = some "true") :
    mutateGOMAXPROCS h pod = mutateGOMAXPROCS h pod.withoutAnnotations := by
  have hs : ¬ skipRequested pod = true := fun hs => hskip ((skipRequested_iff pod).mp hs)
  have hs' : ¬ skipRequested pod.withoutAnnotations = true := by
    rw [skipRequested_iff]
    rintro ⟨a, ha, _⟩
    cases ha
  rw [mutateGOMAXPROCS_eq, mutateGOMAXPROCS_eq, if_neg hs, if_neg hs']
  congr 1
  exact loopOps_congr h h pod pod.withoutAnnotations _ 0
    (fun c _ _ => calculateGOMAXPROCS_congr_pod h c _ _ rfl)

theorem annotatedPod_not_skipped (v : String) (hv : v ≠ "true") :
    ¬ ∃ a, (annotatedPod v).Annotations = some a ∧
      a "setmaxproc.webhook/skip" = some "true" := by
  rintro ⟨a, ha, hk⟩
  have ha' : a = fun k => if k = "setmaxproc.webhook/skip" then some v else none :=
    (Option.some.inj ha).symm
  rw [ha'] at hk
  simp only [if_true, Option.some.injEq] at hk
  exact hv hk

theorem mutateGOMAXPROCS_ignores_other_annotations_witness :
    (¬ ∃ a, (annotatedPod "True").Annotations = some a ∧
      a "setmaxproc.webhook/skip" = some "true") ∧
    mutateGOMAXPROCS host8 (annotatedPod "True") = mutateGOMAXPROCS host8 examplePod ∧
    mutateGOMAXPROCS host8 (annotatedPod "TRUE") = mutateGOMAXPROCS host8 examplePod ∧
    mutateGOMAXPROCS host8 (annotatedPod "1") = mutateGOMAXPROCS host8 examplePod ∧
    mutateGOMAXPROCS host8 (annotatedPod " true") = mutateGOMAXPROCS host8 examplePod ∧
    mutateGOMAXPROCS host8 (annotatedPod "false") = mutateGOMAXPROCS host8 examplePod ∧
    mutateGOMAXPROCS host8 (annotatedPod "") = mutateGOMAXPROCS host8 examplePod ∧
    mutateGOMAXPROCS host8 otherAnnotationPod = mutateGOMAXPROCS host8 examplePod :=
  ⟨annotatedPod_not_skipped "True" (by decide),
    mutateGOMAXPROCS_ignores_other_annotations host8 (annotatedPod "True")
      (annotatedPod_not_skipped "True" (by decide)),
    mutateGOMAXPROCS_ignores_other_annotations host8 (annotatedPod "TRUE")
      (annotatedPod_not_skipped "TRUE" (by decide)),
    mutateGOMAXPROCS_ignores_other_annotations host8 (annotatedPod "1")
      (annotatedPod_not_skipped "1" (by decide)),
    mutateGOMAXPROCS_ignores_other_annotations host8 (annotatedPod " true")
      (annotatedPod_not_skipped " true" (by decide)),
    mutateGOMAXPROCS_ignores_other_annotations host8 (annotatedPod "false")
      (annotatedPod_not_skipped "false" (by decide)),
    mutateGOMAXPROCS_ignores_other_annotations host8 (annotatedPod "")
      (annotatedPod_not_skipped "" (by decide)),
    mutateGOMAXPROCS_ignores_other_annotations host8 otherAnnotationPod (by
      rintro ⟨a, ha, hk⟩
      have ha' : a = fun k => if k = "team" then some "infra" else none :=
        (Option.some.inj ha).symm
      rw [ha'] at hk
      revert hk
      decide)⟩

/-- C15. The function `mutateGOMAXPROCS` is total: for every pod, also one without containers,
annotations, variables or resource maps, it returns a patch list; every call of
`calculateGOMAXPROCS` it makes is on a container of the pod, where the division by the number
of containers is not a division by zero. Called on a pod without containers,
`calculateGOMAXPROCS` itself does divide by zero. -/
theorem mutateGOMAXPROCS_total :
    (∀ (h : Host) (pod : Pod), ∃ patches, mutateGOMAXPROCS h pod = some patches) ∧
    (∀ (h : Host) (pod : Pod), ∀ c ∈ pod.Spec.Containers,
      ((pod.Spec.Containers.length : Nat) : Int) ≠ 0 ∧
        ∃ v, calculateGOMAXPROCS h c pod = some v) ∧
    mutateGOMAXPROCS host8 (mkPod []) = some [] ∧
    calculateGOMAXPROCS host8 (mkContainer "golang:1.21" none none none) (mkPod []) = none := by
  refine ⟨fun h pod => ⟨_, mutateGOMAXPROCS_eq h pod⟩, ?_, by decide, by decide⟩
  intro h pod c hc
  have hne : pod.Spec.Containers ≠ [] := List.ne_nil_of_mem hc
  refine ⟨?_, calculateGOMAXPROCS_isSome h c pod hne⟩
  have : 0 < pod.Spec.Containers.length := List.length_pos.mpr hne
  omega

/-- C17. Every operation `mutateGOMAXPROCS` returns has `op` equal to `add` and a path that is
`/spec/containers/<i>/env`, alone or followed by the append marker, where `i` is the decimal
rendering of an index below the number of containers of the pod. -/
theorem mutateGOMAXPROCS_only_adds_env (h : Host) (pod : Pod) :
    ∃ patches, mutateGOMAXPROCS h pod = some patches ∧
      ∀ op ∈ patches, op.Op = "add" ∧
        ∃ i, i < pod.Spec.Containers.length ∧
          (op.Path = "/spec/containers/" ++ Itoa i ++ "/env" ∨
            op.Path = "/spec/containers/" ++ Itoa i ++ "/env/-") := by
  refine ⟨_, mutateGOMAXPROCS_eq h pod, ?_⟩
  intro op hop
  by_cases hs : skipRequested pod = true
  · rw [if_pos hs] at hop
    exact absurd hop (List.not_mem_nil _)
  · rw [if_neg hs] at hop
    obtain ⟨k, c, _, hget, _, rfl⟩ := loopOps_mem h pod _ 0 op hop
    have hk : k < pod.Spec.Containers.length := by
      have := (List.getElem?_eq_some_iff.mp hget).1
      simpa using this
    by_cases hnil : c.Env.isNone = true
    · refine ⟨by simp [patchAt, hnil], k, hk, Or.inl ?_⟩
      simp [patchAt, hnil, envPathOf]
    · refine ⟨by simp [patchAt, hnil], k, hk, Or.inr ?_⟩
      rw [← envPathOf_append]
      simp [patchAt, hnil]

theorem roundUpCores_congr (h1 h2 : Host) (f : Float64)
    (hconv : floatToInt h1 f = floatToInt h2 f) :
    roundUpCores h1 f = roundUpCores h2 f := by
  unfold roundUpCores
  rw [hconv]

theorem calculateGOMAXPROCS_congr_host (h1 h2 : Host) (c : Container) (pod : Pod)
    (hcpu : h1.NumCPU = h2.NumCPU)
    (hconv : ∀ q ∈ cpuQuantities c, floatToInt h1 q.approx = floatToInt h2 q.approx) :
    calculateGOMAXPROCS h1 c pod = calculateGOMAXPROCS h2 c pod := by
  unfold cpuQuantities at hconv
  unfold calculateGOMAXPROCS
  cases hl : lookupCPU c.Resources.Limits with
  | some q =>
    simp only
    rw [roundUpCores_congr h1 h2 q.approx (hconv q (by simp [hl]))]
  | none =>
    cases hr : lookupCPU c.Resources.Requests with
    | some q =>
      simp only
      rw [roundUpCores_congr h1 h2 q.approx (hconv q (by simp [hr]))]
    | none =>
      simp only [hcpu]

/-- C16, amended. The patch list is a function of the pod, the number of logical CPUs of the
host and the conversion `int(f)` of the platform on the CPU quantities of the pod: two
evaluations on the same pod, on hosts with the same number of logical CPUs that convert every
CPU quantity of the pod to the same `int`, return the same list, with the same length and the
same `op`, path and value at every position. -/
theorem mutateGOMAXPROCS_deterministic (h1 h2 : Host) (pod : Pod)
    (hcpu : h1.NumCPU = h2.NumCPU)
    (hconv : ∀ c ∈ pod.Spec.Containers, ∀ q ∈ cpuQuantities c,
      floatToInt h1 q.approx = floatToInt h2 q.approx) :
    ∃ patches1 patches2, mutateGOMAXPROCS h1 pod = some patches1 ∧
      mutateGOMAXPROCS h2 pod = some patches2 ∧
      patches1 = patches2 ∧ patches1.length = patches2.length ∧
      ∀ (j : Nat) (op1 op2 : patchOperation),
        patches1[j]? = some op1 → patches2[j]? = some op2 →
        op1.Op = op2.Op ∧ op1.Path = op2.Path ∧ op1.Value = op2.Value := by
  have heq : (if skipRequested pod then [] else loopOps h1 pod 0 pod.Spec.Containers) =
      (if skipRequested pod then [] else loopOps h2 pod 0 pod.Spec.Containers) := by
    rw [loopOps_congr h1 h2 pod pod _ 0
      (fun c hc _ => calculateGOMAXPROCS_congr_host h1 h2 c pod hcpu (hconv c hc))]
  refine ⟨_, _, mutateGOMAXPROCS_eq h1 pod, mutateGOMAXPROCS_eq h2 pod, heq, by rw [heq], ?_⟩
  intro j op1 op2 hj1 hj2
  rw [heq] at hj1
  have hop : op1 = op2 := Option.some.inj (hj1.symm.trans hj2)
  rw [hop]
  exact ⟨rfl, rfl, rfl⟩

set_option maxRecDepth 100000 in
/-- C16 as stated fails: the hosts `host8` and `host8sat` have the same number of logical CPUs
and return different patch lists for the same pod, whose CPU limit of `2 ^ 63` cores is beyond
the range of `int`. -/
theorem mutateGOMAXPROCS_depends_on_int_conversion :
    host8.NumCPU = host8sat.NumCPU ∧
    mutateGOMAXPROCS host8 hugeLimitPod =
      some [{ Op := "add", Path := "/spec/containers/0/env",
              Value := .envList [{ Name := "GOMAXPROCS", Value := "1" }] }] ∧
    mutateGOMAXPROCS host8sat hugeLimitPod =
      some [{ Op := "add", Path := "/spec/containers/0/env",
              Value := .envList [{ Name := "GOMAXPROCS", Value := "9223372036854775807" }] }] ∧
    mutateGOMAXPROCS host8 hugeLimitPod ≠ mutateGOMAXPROCS host8sat hugeLimitPod := by
  refine ⟨rfl, by decide, by decide, by decide⟩

set_option maxRecDepth 100000 in
theorem mutateGOMAXPROCS_deterministic_witness :
    host8.NumCPU = host8sat.NumCPU ∧
    (∀ c ∈ examplePod.Spec.Containers, ∀ q ∈ cpuQuantities c,
      floatToInt host8 q.approx = floatToInt host8sat q.approx) ∧
    ∃ patches, mutateGOMAXPROCS host8 examplePod = some patches ∧
      mutateGOMAXPROCS host8sat examplePod = some patches :=
  have hconv : ∀ c ∈ examplePod.Spec.Containers, ∀ q ∈ cpuQuantities c,
      floatToInt host8 q.approx = floatToInt host8sat q.approx := by
    intro c hc q hq
    simp only [examplePod, mkPod, List.mem_cons, List.mem_singleton, List.not_mem_nil,
      or_false] at hc
    rcases hc with rfl | rfl | rfl <;>
      simp [cpuQuantities, mkContainer, lookupCPU, ResourceCPU] at hq <;>
      subst hq <;> decide
  ⟨rfl, hconv, by
    obtain ⟨p1, p2, h1, h2, h12, _⟩ :=
      mutateGOMAXPROCS_deterministic host8 host8sat examplePod rfl hconv
    exact ⟨p1, h1, h12 ▸ h2⟩⟩

/-- C18. Containers are evaluated independently: for two pods with the same annotations and
the same number of containers that hold the same container at index `i`, on the same host, the
operations targeting index `i` are the same in both patch lists, whatever the other containers
are. -/
theorem mutateGOMAXPROCS_container_independent (h : Host) (pod1 pod2 : Pod) (i : Nat)
    (c : Container) (hann : pod1.Annotations = pod2.Annotations)
    (hlen : pod1.Spec.Containers.length = pod2.Spec.Containers.length)
    (hget1 : pod1.Spec.Containers[i]? = some c) (hget2 : pod2.Spec.Containers[i]? = some c) :
    ∃ patches1 patches2, mutateGOMAXPROCS h pod1 = some patches1 ∧
      mutateGOMAXPROCS h pod2 = some patches2 ∧
      patches1.filter (pathUnder i) = patches2.filter (pathUnder i) ∧
      (patches1.filter (pathUnder i)).length ≤ 1 := by
  have hskip : skipRequested pod1 = skipRequested pod2 := by
    unfold skipRequested
    rw [hann]
  refine ⟨_, _, mutateGOMAXPROCS_eq h pod1, mutateGOMAXPROCS_eq h pod2, ?_⟩
  rw [hskip]
  by_cases hs : skipRequested pod2 = true
  · rw [if_pos hs, if_pos hs]
    exact ⟨rfl, Nat.zero_le _⟩
  · rw [if_neg hs, if_neg hs]
    by_cases hw : wantsPatch c
    · rw [loopOps_filter_of_wants h pod1 _ 0 i c (Nat.zero_le i) (by simpa using hget1) hw,
        loopOps_filter_of_wants h pod2 _ 0 i c (Nat.zero_le i) (by simpa using hget2) hw,
        calculateGOMAXPROCS_congr_pod h c pod1 pod2 hlen]
      exact ⟨rfl, le_refl _⟩
    · have hnot : ∀ (pod : Pod), pod.Spec.Containers[i]? = some c →
          (loopOps h pod 0 pod.Spec.Containers).filter (pathUnder i) = [] := by
        intro pod hget
        apply loopOps_filter_of_not_wants
        intro c' _ hget' hw'
        have hcc : pod.Spec.Containers[i]? = some c' := by simpa using hget'
        rw [hget] at hcc
        exact hw ((Option.some.inj hcc) ▸ hw')
      rw [hnot pod1 hget1, hnot pod2 hget2]
      exact ⟨rfl, Nat.zero_le _⟩

/-- C20. When every container of the pod that is runtime-managed and lacks `GOMAXPROCS` declares
a CPU limit or a CPU request, the patch list is the same for any two numbers of logical CPUs of
the host. -/
theorem mutateGOMAXPROCS_independent_of_NumCPU (h : Host) (pod : Pod) (n1 n2 : Nat)
    (hdecl : ∀ c ∈ pod.Spec.Containers, wantsPatch c →
      (∃ rl q, c.Resources.Limits = some rl ∧ rl "cpu" = some q) ∨
        ∃ rr q, c.Resources.Requests = some rr ∧ rr "cpu" = some q) :
    mutateGOMAXPROCS (h.withNumCPU n1) pod = mutateGOMAXPROCS (h.withNumCPU n2) pod := by
  rw [mutateGOMAXPROCS_eq, mutateGOMAXPROCS_eq]
  congr 2
  apply loopOps_congr
  intro c hc hw
  unfold calculateGOMAXPROCS
  cases hl : lookupCPU c.Resources.Limits with
  | some q => rfl
  | none =>
    cases hr : lookupCPU c.Resources.Requests with
    | some q => rfl
    | none =>
      exfalso
      rcases hdecl c hc hw with ⟨rl, q, hlim, hq⟩ | ⟨rr, q, hreq, hq⟩
      · rw [hlim] at hl
        have : rl ResourceCPU = none := hl
        rw [show rl ResourceCPU = rl "cpu" from rfl, hq] at this
        cases this
      · rw [hreq] at hr
        have : rr ResourceCPU = none := hr
        rw [show rr ResourceCPU = rr "cpu" from rfl, hq] at this
        cases this

theorem mutateGOMAXPROCS_container_independent_witness :
    examplePod.Spec.Containers.length = siblingPod.Spec.Containers.length ∧
    ∃ patches1 patches2, mutateGOMAXPROCS host8 examplePod = some patches1 ∧
      mutateGOMAXPROCS host8 siblingPod = some patches2 ∧
      patches1.filter (pathUnder 0) = patches2.filter (pathUnder 0) :=
  ⟨rfl, by
    obtain ⟨p1, p2, h1, h2, h12, _⟩ :=
      mutateGOMAXPROCS_container_independent host8 examplePod siblingPod 0
        (mkContainer "golang:1.21" (some []) (some q2500m) none) rfl rfl rfl rfl
    exact ⟨p1, p2, h1, h2, h12⟩⟩

theorem mutateGOMAXPROCS_independent_of_NumCPU_witness :
    (∀ c ∈ limitedPod.Spec.Containers, wantsPatch c →
      (∃ rl q, c.Resources.Limits = some rl ∧ rl "cpu" = some q) ∨
        ∃ rr q, c.Resources.Requests = some rr ∧ rr "cpu" = some q) ∧
    mutateGOMAXPROCS (host8.withNumCPU 1) limitedPod =
      mutateGOMAXPROCS (host8.withNumCPU 64) limitedPod :=
  have hdecl : ∀ c ∈ limitedPod.Spec.Containers, wantsPatch c →
      (∃ rl q, c.Resources.Limits = some rl ∧ rl "cpu" = some q) ∨
        ∃ rr q, c.Resources.Requests = some rr ∧ rr "cpu" = some q := by
    intro c hc hw
    simp only [limitedPod, mkPod, List.mem_cons, List.mem_singleton, List.not_mem_nil,
      or_false] at hc
    rcases hc with rfl | rfl
    · exact Or.inl ⟨_, q2500m, rfl, rfl⟩
    · exact absurd hw (by decide)
  ⟨hdecl, mutateGOMAXPROCS_independent_of_NumCPU host8 limitedPod 1 64 hdecl⟩

/-! ## The admission handler -/

theorem mutateHandler_of_decoded (codec : Codec) (h : Host) (body : Bytes)
    (review : AdmissionReview) (req : AdmissionRequest) (pod : Pod)
    (hreview : codec.unmarshalReview body = .ok review) (hreq : review.Request = some req)
    (hpod : codec.unmarshalPod req.Object.Raw = .ok pod) :
    ∃ patches, mutateGOMAXPROCS h pod = some patches ∧
      mutateHandler codec h (.ok body) =
        match buildAdmissionResponse codec req patches with
        | .error err => .httpError err StatusInternalServerError
        | .ok admissionResponse => writeReview codec review admissionResponse := by
  refine ⟨_, mutateGOMAXPROCS_eq h pod, ?_⟩
  unfold mutateHandler
  simp only [hreview, hreq, hpod, mutateGOMAXPROCS_eq h pod]

/-- C12. When the envelope and the pod decode, the handler either answers 500 because the
patch list could not be encoded, or builds and writes an admission response in which `Patch`
and `PatchType` are both set exactly when `mutateGOMAXPROCS` returned at least one operation:
then `PatchType` is `JSONPatch` and `Patch` is the encoding of the operation list; for an empty
list both are absent. -/
theorem mutateHandler_patch_iff_operations (codec : Codec) (h : Host) (body : Bytes)
    (review : AdmissionReview) (req : AdmissionRequest) (pod : Pod)
    (hreview : codec.unmarshalReview body = .ok review) (hreq : review.Request = some req)
    (hpod : codec.unmarshalPod req.Object.Raw = .ok pod) :
    ∃ patches, mutateGOMAXPROCS h pod = some patches ∧
      ((∃ err, patches ≠ [] ∧ codec.marshalPatches patches = .error err ∧
          mutateHandler codec h (.ok body) = .httpError err 500) ∨
        ∃ resp, buildAdmissionResponse codec req patches = .ok resp ∧
          mutateHandler codec h (.ok body) = writeReview codec review resp ∧
          ((resp.Patch.isSome = true ∧ resp.PatchType.isSome = true) ↔ patches ≠ []) ∧
          ((resp.Patch.isSome = true ∨ resp.PatchType.isSome = true) → patches ≠ []) ∧
          (patches ≠ [] → resp.PatchType = some "JSONPatch" ∧
            ∃ patchBytes, codec.marshalPatches patches = .ok patchBytes ∧
              resp.Patch = some patchBytes) ∧
          (patches = [] → resp.Patch = none ∧ resp.PatchType = none)) := by
  obtain ⟨patches, hp, hh⟩ := mutateHandler_of_decoded codec h body review req pod hreview hreq hpod
  refine ⟨patches, hp, ?_⟩
  cases patches with
  | nil =>
    right
    refine ⟨{ UID := req.UID, Allowed := true, Patch := none, PatchType := none }, rfl, ?_, ?_⟩
    · rw [hh]; rfl
    · simp
  | cons op rest =>
    have hlen : (op :: rest).length > 0 := Nat.succ_pos _
    cases hm : codec.marshalPatches (op :: rest) with
    | error err =>
      left
      refine ⟨err, List.cons_ne_nil _ _, rfl, ?_⟩
      rw [hh]
      simp only [buildAdmissionResponse, hlen, if_true, hm]
      rfl
    | ok bytes =>
      right
      have hb : buildAdmissionResponse codec req (op :: rest) =
          .ok { UID := req.UID, Allowed := true, Patch := some bytes,
                PatchType := some PatchTypeJSONPatch } := by
        simp only [buildAdmissionResponse, hlen, if_true, hm]
      refine ⟨_, hb, ?_, ?_, ?_, ?_, ?_⟩
      · rw [hh, hb]
      · simp
      · simp
      · exact fun _ => ⟨rfl, bytes, rfl, rfl⟩
      · intro hnil
        exact absurd hnil (List.cons_ne_nil _ _)

/-- C13. When the envelope and the pod decode, the admission response the handler builds has
the `UID` of the request and `Allowed` true, with or without a patch; the handler writes the
review holding it, unless the patch list could not be encoded. -/
theorem mutateHandler_echoes_uid_and_allows (codec : Codec) (h : Host) (body : Bytes)
    (review : AdmissionReview) (req : AdmissionRequest) (pod : Pod)
    (hreview : codec.unmarshalReview body = .ok review) (hreq : review.Request = some req)
    (hpod : codec.unmarshalPod req.Object.Raw = .ok pod) :
    ∃ patches, mutateGOMAXPROCS h pod = some patches ∧
      ((∃ err, patches ≠ [] ∧ codec.marshalPatches patches = .error err ∧
          mutateHandler codec h (.ok body) = .httpError err 500) ∨
        ∃ resp, buildAdmissionResponse codec req patches = .ok resp ∧
          mutateHandler codec h (.ok body) = writeReview codec review resp ∧
          resp.UID = req.UID ∧ resp.Allowed = true) := by
  obtain ⟨patches, hp, hcases⟩ :=
    mutateHandler_of_decoded codec h body review req pod hreview hreq hpod
  refine ⟨patches, hp, ?_⟩
  by_cases hlen : patches.length > 0
  · cases hm : codec.marshalPatches patches with
    | error err =>
      left
      refine ⟨err, List.ne_nil_of_length_pos hlen, rfl, ?_⟩
      rw [hcases]
      simp only [buildAdmissionResponse, hlen, if_true, hm]
      rfl
    | ok bytes =>
      right
      have hb : buildAdmissionResponse codec req patches =
          .ok { UID := req.UID, Allowed := true, Patch := some bytes,
                PatchType := some PatchTypeJSONPatch } := by
        simp only [buildAdmissionResponse, hlen, if_true, hm]
      exact ⟨_, hb, by rw [hcases, hb], rfl, rfl⟩
  · right
    have hb : buildAdmissionResponse codec req patches =
        .ok { UID := req.UID, Allowed := true, Patch := none, PatchType := none } := by
      simp only [buildAdmissionResponse, hlen, if_false]
    exact ⟨_, hb, by rw [hcases, hb], rfl, rfl⟩

/-- C14. When decoding the envelope fails, or decoding the raw pod of the request fails, the
handler calls `http.Error` with the text of the decode error and status 400, and writes no
admission review. -/
theorem mutateHandler_decode_failure (codec : Codec) (h : Host) (body : Bytes) :
    (∀ err, codec.unmarshalReview body = .error err →
      mutateHandler codec h (.ok body) = .httpError err 400) ∧
    (∀ review req err, codec.unmarshalReview body = .ok review → review.Request = some req →
      codec.unmarshalPod req.Object.Raw = .error err →
      mutateHandler codec h (.ok body) = .httpError err 400) ∧
    mutateHandler exampleCodec host8 (.ok "not json") =
      .httpError "invalid character 'o' in literal null" 400 ∧
    mutateHandler exampleCodec host8 (.ok "not a pod") =
      .httpError "invalid character 'o' in literal null" 400 := by
  refine ⟨?_, ?_, by decide, by decide⟩
  · intro err herr
    unfold mutateHandler
    simp only [herr]
    rfl
  · intro review req err hreview hreq hpod
    unfold mutateHandler
    simp only [hreview, hreq, hpod]
    rfl

/-- C19 fails on the code: when the envelope decodes to a review without request, the handler
reads `req.Object.Raw` through the `nil` request and panics; it writes no response. -/
theorem mutateHandler_absent_request_panics (codec : Codec) (h : Host) (body : Bytes)
    (review : AdmissionReview) (hreview : codec.unmarshalReview body = .ok review)
    (hreq : review.Request = none) :
    mutateHandler codec h (.ok body) = .panic := by
  unfold mutateHandler
  simp only [hreview, hreq]

theorem mutateHandler_absent_request_panics_witness :
    exampleCodec.unmarshalReview "\x7b\x7d" =
      .ok { Kind := "", APIVersion := "", Request := none, Response := none } ∧
    mutateHandler exampleCodec host8 (.ok "\x7b\x7d") = .panic :=
  ⟨rfl, mutateHandler_absent_request_panics exampleCodec host8 "\x7b\x7d" _ rfl rfl⟩

set_option maxRecDepth 100000 in
theorem mutateHandler_patch_iff_operations_witness :
    exampleCodec.unmarshalPod "pod" = .ok examplePod ∧
    exampleCodec.unmarshalPod "skipped" = .ok skippedPod ∧
    (∃ resp, buildAdmissionResponse exampleCodec { UID := "uid-1", Object := { Raw := "pod" } }
        [{ Op := "add", Path := "/spec/containers/0/env/-",
           Value := .envVar { Name := "GOMAXPROCS", Value := "3" } },
         { Op := "add", Path := "/spec/containers/2/env",
           Value := .envList [{ Name := "GOMAXPROCS", Value := "2" }] }] = .ok resp ∧
      resp.PatchType = some "JSONPatch" ∧ resp.Patch.isSome = true) ∧
    ∃ resp, buildAdmissionResponse exampleCodec
        { UID := "uid-1", Object := { Raw := "skipped" } } [] = .ok resp ∧
      resp.PatchType = none ∧ resp.Patch = none := by
  refine ⟨rfl, rfl, ?_, ?_⟩
  · obtain ⟨patches, hp, hcase⟩ :=
      mutateHandler_patch_iff_operations exampleCodec host8 "pod" _
        { UID := "uid-1", Object := { Raw := "pod" } } examplePod rfl rfl rfl
    have hval : mutateGOMAXPROCS host8 examplePod = some
        [{ Op := "add", Path := "/spec/containers/0/env/-",
           Value := .envVar { Name := "GOMAXPROCS", Value := "3" } },
         { Op := "add", Path := "/spec/containers/2/env",
           Value := .envList [{ Name := "GOMAXPROCS", Value := "2" }] }] := by decide
    have hpatches := Option.some.inj (hp.symm.trans hval)
    subst hpatches
    rcases hcase with ⟨err, _, herr, _⟩ | ⟨resp, hb, _, _, _, hset, _⟩
    · cases herr
    · obtain ⟨htype, bytes, _, hpatch⟩ := hset (List.cons_ne_nil _ _)
      exact ⟨resp, hb, htype, by rw [hpatch]; rfl⟩
  · obtain ⟨patches, hp, hcase⟩ :=
      mutateHandler_patch_iff_operations exampleCodec host8 "skipped" _
        { UID := "uid-1", Object := { Raw := "skipped" } } skippedPod rfl rfl rfl
    have hval : mutateGOMAXPROCS host8 skippedPod = some [] := by decide
    have hpatches := Option.some.inj (hp.symm.trans hval)
    subst hpatches
    rcases hcase with ⟨err, hne, _, _⟩ | ⟨resp, hb, _, _, _, _, hunset⟩
    · exact absurd rfl hne
    · exact ⟨resp, hb, (hunset rfl).2, (hunset rfl).1⟩

set_option maxRecDepth 100000 in
theorem mutateHandler_echoes_uid_and_allows_witness :
    exampleCodec.unmarshalPod "pod" = .ok examplePod ∧
    mutateHandler exampleCodec host8 (.ok "pod") =
      .written "application/json" "uid-1:/spec/containers/0/env/-,/spec/containers/2/env" ∧
    ∃ patches, mutateGOMAXPROCS host8 examplePod = some patches ∧
      ((∃ err, patches ≠ [] ∧ exampleCodec.marshalPatches patches = .error err ∧
          mutateHandler exampleCodec host8 (.ok "pod") = .httpError err 500) ∨
        ∃ resp, buildAdmissionResponse exampleCodec
            { UID := "uid-1", Object := { Raw := "pod" } } patches = .ok resp ∧
          mutateHandler exampleCodec host8 (.ok "pod") =
            writeReview exampleCodec
              { Kind := "AdmissionReview", APIVersion := "admission.k8s.io/v1",
                Request := some { UID := "uid-1", Object := { Raw := "pod" } },
                Response := none } resp ∧
          resp.UID = "uid-1" ∧ resp.Allowed = true) :=
  ⟨rfl, by decide,
    mutateHandler_echoes_uid_and_allows exampleCodec host8 "pod" _
      { UID := "uid-1", Object := { Raw := "pod" } } examplePod rfl rfl rfl⟩

end SetMaxProc
